import Mathlib

/-!
A shallow embedding of `twisted/news/database.py` (news server storage
backends) together with theorems checking the natural-language
specification against it.

Python strings are modelled as `List Char` (`Str`).  Python runtime
exceptions raised by the code paths under study (`TypeError` from
`list.extend(None)`, `KeyError`, `IndexError` from indexing a 1-tuple,
`AttributeError`, `NotImplementedError`) are modelled with `Except PyErr`.
A `Deferred` that has already fired is modelled by `DRes`: either
`defer.succeed(value)` or `defer.fail(payload)`.

Ambient effects (current time, md5 of time+body, `socket.gethostname()`)
are modelled by an `Env` record carrying the values those calls would
produce; the code only moves these values around, so this is faithful.
-/

namespace News

deriving instance DecidableEq for Except

/-- A Python `str`, modelled as its list of characters. -/
abbrev Str := List Char

/-- Build a `Str` from a Lean string literal. -/
def sc (s : String) : Str := s.data

/-- Python runtime exceptions that the modelled code paths can raise. -/
inductive PyErr where
  | typeError
  | keyError
  | indexError
  | attributeError
  | notImplementedError
deriving DecidableEq, Repr

/-- Failure payloads passed to `defer.fail(...)` in `database.py`:
`None` (PickleStorage.postRequest line 376), the integer codes
`ERR_NOGROUP = 2` / `ERR_NOARTICLE = 3` (line 33), or a
`NewsServerError(message)` (NewsShelf). -/
inductive NFail where
  | pyNone
  | errCode (n : Nat)
  | newsError (msg : Str)
deriving DecidableEq, Repr

/-- An already-fired `Deferred`: `defer.succeed a` or `defer.fail e`. -/
inductive DRes (α : Type) where
  | succeed (a : α)
  | fail (e : NFail)
deriving DecidableEq, Repr

/-- `ERR_NOGROUP, ERR_NOARTICLE = [2, 3]` (database.py line 33). -/
def ERR_NOGROUP : Nat := 2

/-- `ERR_NOARTICLE = 3` (database.py line 33). -/
def ERR_NOARTICLE : Nat := 3

/-! ## Generic association-list operations (Python `dict` semantics)

Python 3 dicts preserve insertion order; assignment to an existing key
replaces the value in place, assignment to a fresh key appends. -/

/-- Dict lookup: first entry with the given key. -/
def look {κ α : Type} [DecidableEq κ] : List (κ × α) → κ → Option α
  | [], _ => none
  | (k', v') :: t, k => if k' = k then some v' else look t k

/-- Dict assignment: replace in place, or append if the key is fresh. -/
def upd {κ α : Type} [DecidableEq κ] : List (κ × α) → κ → α → List (κ × α)
  | [], k, v => [(k, v)]
  | (k', v') :: t, k, v => if k' = k then (k, v) :: t else (k', v') :: upd t k v

/-! ## CRLF splitting (Python `str.split('\r\n')`) -/

/-- Prepend a character to the first chunk of a split result. -/
def consHead (c : Char) : List Str → List Str
  | [] => [[c]]
  | l :: ls => (c :: l) :: ls

/-- Python `s.split('\r\n')`: split on every (leftmost-first) occurrence
of the two-character separator; `''` splits to `['']`. -/
def splitCRLF : Str → List Str
  | [] => [[]]
  | [c] => [[c]]
  | c :: d :: rest =>
    if c = '\r' ∧ d = '\n' then [] :: splitCRLF rest
    else consHead c (splitCRLF (d :: rest))

/-- Python `'\r\n'.join(chunks)`. -/
def interCRLF : List Str → Str
  | [] => []
  | [l] => l
  | l :: ls => l ++ '\r' :: '\n' :: interCRLF ls

/-! ## Further string utilities -/

/-- Does the string contain the two-character substring `xy`? -/
def hasPair (x y : Char) : Str → Bool
  | [] => false
  | [_] => false
  | c :: d :: rest =>
    if c = x ∧ d = y then true else hasPair x y (d :: rest)

/-- Does the string contain `"\r\n\r\n"`? -/
def hasBlank : Str → Bool
  | c :: d :: e :: f :: rest =>
    if c = '\r' ∧ d = '\n' ∧ e = '\r' ∧ f = '\n' then true
    else hasBlank (d :: e :: f :: rest)
  | _ => false

/-- Index of the first occurrence of `"\r\n\r\n"` (Python `find` on a hit). -/
def findBlank : Str → Option Nat
  | c :: d :: e :: f :: rest =>
    if c = '\r' ∧ d = '\n' ∧ e = '\r' ∧ f = '\n' then some 0
    else (findBlank (d :: e :: f :: rest)).map (· + 1)
  | _ => none

/-- Does the string end with `"\r\n"`? -/
def endsCRLF : Str → Bool
  | [a, b] => a = '\r' ∧ b = '\n'
  | _ :: b :: rest => endsCRLF (b :: rest)
  | _ => false

/-- `cleave = message.find('\r\n\r\n'); (message[:cleave], message[cleave+4:])`.
When `find` misses it returns `-1`, so the slices become
`message[:-1]` and `message[3:]` — modelled faithfully. -/
def cleave (m : Str) : Str × Str :=
  match findBlank m with
  | some i => (m.take i, m.drop (i + 4))
  | none => (m.take (m.length - 1), m.drop 3)

/-- Python `line.split(': ', 1)`: `(line, none)` when the separator is
absent, otherwise `(before-first, some after)`. -/
def splitCS : Str → Str × Option Str
  | [] => ([], none)
  | [c] => ([c], none)
  | c :: d :: rest =>
    if c = ':' ∧ d = ' ' then ([], some rest)
    else
      let p := splitCS (d :: rest)
      (c :: p.1, p.2)

/-- Whitespace characters recognised by Python `str.split()`. -/
def isPyWS (c : Char) : Bool :=
  c = ' ' ∨ c = '\t' ∨ c = '\n' ∨ c = '\r' ∨ c = '\x0b' ∨ c = '\x0c'

/-- Worker for `splitWS`: `acc` is the current word, reversed. -/
def splitWSA : Str → Str → List Str
  | [], acc => if acc = [] then [] else [acc.reverse]
  | c :: rest, acc =>
    if isPyWS c then
      if acc = [] then splitWSA rest [] else acc.reverse :: splitWSA rest []
    else splitWSA rest (c :: acc)

/-- Python `s.split()` with no argument: split on whitespace runs,
discarding empty words. -/
def splitWS (s : Str) : List Str := splitWSA s []

/-- Python `' '.join(words)`. -/
def joinSpace : List Str → Str
  | [] => []
  | [w] => w
  | w :: ws => w ++ ' ' :: joinSpace ws

/-- Python `''.join(words)` (used by `PickleStorage.postRequest`). -/
def joinEmpty : List Str → Str
  | [] => []
  | w :: ws => w ++ joinEmpty ws

/-- Decimal digit character. -/
def digitChar (n : Nat) : Char := Char.ofNat (48 + n)

/-- Fuel-driven worker for `natStr`; the fuel `n + 1` always suffices. -/
def natStrGo : Nat → Nat → Str → Str
  | 0, _, acc => acc
  | fuel + 1, n, acc =>
    let acc' := digitChar (n % 10) :: acc
    if n < 10 then acc' else natStrGo fuel (n / 10) acc'

/-- Python `str(n)` for a non-negative integer. -/
def natStr (n : Nat) : Str := natStrGo (n + 1) n []

/-- Python `c.lower()` for the ASCII range (header names in the claims
are ASCII, where `Char.toLower` agrees with `str.lower`). -/
def lowerStr (s : Str) : Str := s.map Char.toLower

/-- Python `max(list-of-ints)` (callers guard against the empty list;
natural-number fold from 0 agrees with `max` on any non-empty list). -/
def pyMax (l : List Nat) : Nat := l.foldl max 0

/-- Python `min(list-of-ints)` on a non-empty list. -/
def pyMin (l : List Nat) : Nat :=
  match l with
  | [] => 0
  | x :: xs => xs.foldl min x

/-! ## The Article model (`class Article`, database.py lines 43-94)

`Article.__init__(head, body)` iterates over `head.split('\r\n')`.  A line
whose slice `line[0:1]` is contained in `' \t'` (that is: an empty line, or
a line starting with a space or tab) is treated as a continuation of the
previous header; `i[1] += '\r\n' + line` then raises `IndexError` when the
previous entry was a 1-tuple, and the initial `self.headers[header]` with
`header = None` raises `KeyError` when no header was seen yet.  Any other
line is `line.split(': ', 1)`, stored under the lower-cased name as the
tuple of split parts (a 1-tuple when the separator is absent, modelled by
`val = none`). -/

/-- One entry of `Article.headers`: dict key (lower-cased name), original
name, and the value when the stored tuple has two components. -/
structure HEntry where
  key : Str
  name : Str
  val : Option Str
deriving DecidableEq, Repr

/-- Lookup in the headers dict. -/
def lookupH : List HEntry → Str → Option HEntry
  | [], _ => none
  | e :: t, k => if e.key = k then some e else lookupH t k

/-- Assignment into the headers dict: replace in place or append. -/
def updateH : List HEntry → Str → Str → Option Str → List HEntry
  | [], k, n, v => [⟨k, n, v⟩]
  | e :: t, k, n, v => if e.key = k then ⟨k, n, v⟩ :: t else e :: updateH t k n v

/-- Python `line[0:1] in ' \t'`: true for the empty line and for lines
starting with a space or tab. -/
def isContLine (l : Str) : Bool :=
  match l.head? with
  | none => true
  | some c => c = ' ' ∨ c = '\t'

/-- One iteration of the header-parsing loop of `Article.__init__`
(lines 47-55).  State: headers so far and the current header key. -/
def procLine (st : List HEntry × Option Str) (line : Str) :
    Except PyErr (List HEntry × Option Str) :=
  if isContLine line then
    match st.2 with
    | none => .error .keyError
    | some k =>
      match lookupH st.1 k with
      | none => .error .keyError
      | some e =>
        match e.val with
        | none => .error .indexError
        | some v =>
          .ok (updateH st.1 k e.name (some (v ++ '\r' :: '\n' :: line)), some k)
  else
    let p := splitCS line
    let k := lowerStr p.1
    .ok (updateH st.1 k p.1 p.2, some k)

/-- The header-parsing loop of `Article.__init__` over all lines. -/
def parseHead (head : Str) : Except PyErr (List HEntry) := do
  let st ← (splitCRLF head).foldlM procLine ([], none)
  pure st.1

/-- `Article.getHeader` (lines 72-77): `''` when absent; indexing the
stored 1-tuple with `[1]` raises `IndexError`. -/
def getHeaderE (hs : List HEntry) (h : Str) : Except PyErr Str :=
  match lookupH hs (lowerStr h) with
  | none => .ok []
  | some e =>
    match e.val with
    | none => .error .indexError
    | some v => .ok v

/-- `Article.putHeader` (lines 80-81). -/
def putHeaderH (hs : List HEntry) (h v : Str) : List HEntry :=
  updateH hs (lowerStr h) h (some v)

/-- A parsed article: headers dict and body text. -/
structure Article where
  headers : List HEntry
  body : Str
deriving DecidableEq, Repr

/-- Values produced by the ambient environment (time, md5, hostname).
`msgIdCore` stands for `hexdigest(md5(str(time.time()) + body)) + '@' +
socket.gethostname()` (line 59), `dateStr` for `time.ctime(time.time())`
(line 69), `hostname` for `socket.gethostname()`, and `host0` for
`socket.gethostname().split()[0]` (lines 379, 632). -/
structure Env where
  msgIdCore : Str
  dateStr : Str
  hostname : Str
  host0 : Str
deriving DecidableEq, Repr

/-- One defaulting step of `Article.__init__`:
`if not self.getHeader(h): self.putHeader(h, v)`. -/
def dflt (hs : List HEntry) (h v : Str) : Except PyErr (List HEntry) := do
  let cur ← getHeaderE hs h
  pure (if cur = [] then putHeaderH hs h v else hs)

/-- `Article.__init__` (lines 44-69): parse the header block, then
synthesise `Message-ID`, `Bytes`, `Lines` and `Date` when absent. -/
def mkArticle (env : Env) (head body : Str) : Except PyErr Article := do
  let hs ← parseHead head
  let hs ← dflt hs (sc "Message-ID") ('<' :: env.msgIdCore ++ ['>'])
  let hs ← dflt hs (sc "Bytes") (natStr body.length)
  let hs ← dflt hs (sc "Lines") (natStr (body.count '\n'))
  let hs ← dflt hs (sc "Date") env.dateStr
  pure { headers := hs, body := body }

/-- `Article.textHeaders` (lines 84-88): `'Name: Value'` lines joined by
CRLF with a trailing CRLF; `'{}: {}'.format(*i)` raises `TypeError` on a
1-tuple. -/
def textHeadersE (a : Article) : Except PyErr Str := do
  let lines ← a.headers.mapM (fun e =>
    match e.val with
    | none => Except.error PyErr.typeError
    | some v => Except.ok (e.name ++ ':' :: ' ' :: v))
  pure (interCRLF lines ++ ['\r', '\n'])

/-- `OVERVIEW_FMT` (lines 35-38). -/
def OVERVIEW_FMT : List Str :=
  [sc "Subject", sc "From", sc "Date", sc "Message-ID", sc "References",
   sc "Bytes", sc "Lines", sc "Xref"]

/-- `Article.overview` (lines 90-94). -/
def overviewE (a : Article) : Except PyErr (List Str) :=
  OVERVIEW_FMT.mapM (getHeaderE a.headers)

/-! ## Moderation mixin (`_ModerationMixin`, lines 236-294)

`notifyModerators` reads the `Newsgroups` and `Subject` headers, picks a
sender, formats a notification email and returns the deferred result of
`smtp.sendmail(mailhost, sender, moderators, msg)`.  The mail transport
is an external collaborator; its invocation is modelled by the value
`PostVal.mailed mailhost sender recipients`. -/

/-- Value a post deferred fires with: `defer.succeed(None)` after a
store, or the result of handing the message to `smtp.sendmail`. -/
inductive PostVal where
  | posted
  | mailed (mailhost : Option Str) (sender : Str) (recipients : List Str)
deriving DecidableEq, Repr

/-- `_ModerationMixin.notifyModerators` (lines 244-294). -/
def notifyModerators (env : Env) (mailhost : Option Str) (sender? : Option Str)
    (moderators : List Str) (a : Article) : Except PyErr PostVal := do
  let _ ← getHeaderE a.headers (sc "Newsgroups")
  let _ ← getHeaderE a.headers (sc "Subject")
  let sender := match sender? with
    | none => sc "twisted-news@" ++ env.hostname
    | some s => s
  pure (.mailed mailhost sender moderators)

/-! ## PickleStorage (lines 298-502)

`self.db` is one Python dict that maps the reserved keys `'groups'` (to
the configured group-name list, possibly `None`) and `'moderators'` (to
the moderator dict) and, alongside them, each group name to that group
article dict.  `DBVal` is the sum of those three value shapes.  `flush`
(line 482) only serialises `self.db` to disk and is not modelled; the
dict itself is the state. -/

/-- A value of the `PickleStorage.db` dict. -/
inductive DBVal where
  | names (gs : Option (List Str))
  | mods (m : List (Str × Str))
  | arts (m : List (Nat × Article))
deriving DecidableEq, Repr

/-- A `PickleStorage` instance: the shared dict plus the mail settings. -/
structure PickleStorage where
  db : List (Str × DBVal)
  mailhost : Option Str
  sender : Option Str
deriving DecidableEq, Repr

/-- `PickleStorage.getModerators` (lines 324-330).  For each target group
it calls `moderators.extend(self.db['moderators'].get(group, None))`:
a group with no moderator entry passes `None` to `list.extend`, raising
`TypeError`; a group with an entry extends the list with the individual
characters of the address string.  The final comprehension keeps the
truthy (non-empty) elements. -/
def getModerators (mods : List (Str × Str)) (groups : List Str) :
    Except PyErr (List Str) := do
  let ms ← groups.foldlM (fun acc g =>
    match look mods g with
    | none => Except.error PyErr.typeError
    | some addr => Except.ok (acc ++ addr.map (fun c => [c]))) ([] : List Str)
  pure (ms.filter (fun m => decide (m ≠ [])))

/-- Read the `'moderators'` entry of the db (`KeyError` when absent). -/
def readMods (db : List (Str × DBVal)) : Except PyErr (List (Str × Str)) :=
  match look db (sc "moderators") with
  | some (.mods m) => .ok m
  | some _ => .error .typeError
  | none => .error .keyError

/-- One iteration of the posting loop of `PickleStorage.postRequest`
(lines 366-373): a group name that is a key of the db gets the article
at `max(keys) + 1` (`1` when empty) and a pair is appended to `xref`.
When the key holds the `'groups'` name list, `self.db[group].keys()`
raises `AttributeError`; when it holds the moderator dict, a non-empty
dict makes `max(keys) + 1` add `1` to a string (`TypeError`), and an
empty one would file the article under integer key `1` inside the
string-keyed moderator dict — a heterogeneous dict that this model
cannot represent and that no claim exercises; it is mapped to
`TypeError` as well. -/
def pickleStep (a : Article) (st : List (Str × DBVal) × List (Str × Nat)) (g : Str) :
    Except PyErr (List (Str × DBVal) × List (Str × Nat)) :=
  match look st.1 g with
  | none => .ok st
  | some (.arts m) =>
      let index := if m = [] then 1 else pyMax (m.map Prod.fst) + 1
      .ok (upd st.1 g (.arts (upd m index a)), st.2 ++ [(g, index)])
  | some (.names _) => .error .attributeError
  | some (.mods _) => .error .typeError

/-- The accepted `(group, index)` pairs rendered as the Xref header value
of `PickleStorage.postRequest` lines 378-381: note `u''.join(...)` —
the pairs are concatenated with NO separator after the hostname. -/
def pickleXrefHeader (env : Env) (xref : List (Str × Nat)) : Str :=
  env.host0 ++ ' ' :: joinEmpty (xref.map (fun p => p.1 ++ ':' :: natStr p.2))

/-- Refresh one freshly filled slot with the Xref-carrying article
(the functional rendering of the object aliasing of lines 373 and 378:
the stored object and the one receiving `putHeader('Xref', ...)` are
the same). -/
def pickleOverwrite (a2 : Article) (db : List (Str × DBVal)) (p : Str × Nat) :
    List (Str × DBVal) :=
  match look db p.1 with
  | some (.arts m) => upd db p.1 (.arts (upd m p.2 a2))
  | _ => db

/-- Store-and-xref phase of `PickleStorage.postRequest` (lines 366-384).
The article object is stored by reference and `putHeader('Xref', ...)`
mutates it afterwards, so every stored copy carries the Xref header;
functionally: attach the header, then overwrite the freshly filled
slots. -/
def picklePostCore (env : Env) (s : PickleStorage) (a : Article) (groups : List Str) :
    Except PyErr (DRes PostVal × PickleStorage) := do
  let st ← groups.foldlM (pickleStep a) ((s.db, []) : List (Str × DBVal) × List (Str × Nat))
  if st.2 = [] then
    pure (.fail .pyNone, { s with db := st.1 })
  else
    let a2 := { a with headers := putHeaderH a.headers (sc "Xref") (pickleXrefHeader env st.2) }
    let db2 := st.2.foldl (pickleOverwrite a2) st.1
    pure (.succeed .posted, { s with db := db2 })

/-- `PickleStorage.postRequest` (lines 353-384). -/
def PickleStorage.postRequest (env : Env) (s : PickleStorage) (message : Str) :
    Except PyErr (DRes PostVal × PickleStorage) := do
  let a ← mkArticle env (cleave message).1 (cleave message).2
  let ng ← getHeaderE a.headers (sc "Newsgroups")
  let groups := splitWS ng
  let modsDict ← readMods s.db
  let moderators ← getModerators modsDict groups
  if moderators ≠ [] then do
    let appr ← getHeaderE a.headers (sc "Approved")
    if appr = [] then do
      let r ← notifyModerators env s.mailhost s.sender moderators a
      pure (.succeed r, s)
    else picklePostCore env s a groups
  else picklePostCore env s a groups

/-- One iteration of the `PickleStorage.listRequest` loop
(lines 337-347): low/high from the article dict keys — note
`high = max(keys) + 1` — and flag `'m'` exactly when the name has a
moderator entry. -/
def pickleListStep (db : List (Str × DBVal)) (acc : List (Str × Nat × Nat × Str)) (g : Str) :
    Except PyErr (List (Str × Nat × Nat × Str)) := do
  let pair ← (match look db g with
    | some (.arts m) =>
        if m = [] then Except.ok ((0 : Nat), (0 : Nat))
        else Except.ok (pyMin (m.map Prod.fst), pyMax (m.map Prod.fst) + 1)
    | some (.mods mm) =>
        if mm = [] then Except.ok (0, 0) else Except.error PyErr.typeError
    | some (.names _) => Except.error PyErr.attributeError
    | none => Except.error PyErr.keyError)
  let modsDict ← readMods db
  let flags := if (look modsDict g).isSome then sc "m" else sc "y"
  Except.ok (acc ++ [(g, pair.2, pair.1, flags)])

/-- `PickleStorage.listRequest` (lines 333-348). -/
def PickleStorage.listRequest (s : PickleStorage) :
    Except PyErr (DRes (List (Str × Nat × Nat × Str))) := do
  let names ← (match look s.db (sc "groups") with
    | some (.names (some gs)) => Except.ok gs
    | some (.names none) => Except.error PyErr.typeError
    | some _ => Except.error PyErr.typeError
    | none => Except.error PyErr.keyError)
  let r ← names.foldlM (pickleListStep s.db) ([] : List (Str × Nat × Nat × Str))
  pure (.succeed r)

/-- `PickleStorage.groupRequest` (lines 417-428); the group flag is the
constant `'y'` here.  A non-empty moderator dict under the requested
name would return a tuple mixing string bounds with the integer count
(unrepresentable, unreachable through the claims) — mapped to
`TypeError`. -/
def PickleStorage.groupRequest (s : PickleStorage) (group : Str) :
    Except PyErr (DRes (Str × Nat × Nat × Nat × Str)) :=
  match look s.db group with
  | none => .ok (.fail (.errCode ERR_NOGROUP))
  | some (.arts m) =>
      if m = [] then .ok (.succeed (group, 0, 0, 0, sc "y"))
      else .ok (.succeed (group, m.length, pyMax (m.map Prod.fst), pyMin (m.map Prod.fst), sc "y"))
  | some (.names _) => .error .attributeError
  | some (.mods mm) =>
      if mm = [] then .ok (.succeed (group, 0, 0, 0, sc "y"))
      else .error .typeError

/-- `PickleStorage.xoverRequest` (lines 391-398): unknown key succeeds
with `[]`; the range test here is correctly parenthesised. -/
def PickleStorage.xoverRequest (s : PickleStorage) (group : Str) (low high : Option Nat) :
    Except PyErr (DRes (List (List Str))) :=
  match look s.db group with
  | none => .ok (.succeed [])
  | some (.arts m) =>
      (m.foldlM (fun r (p : Nat × Article) => do
        if (low = none ∨ low.getD 0 ≤ p.1) ∧ (high = none ∨ p.1 ≤ high.getD 0) then
          let ov ← overviewE p.2
          Except.ok (r ++ [natStr p.1 :: ov])
        else Except.ok r) ([] : List (List Str))).map DRes.succeed
  | some (.names _) => .error .attributeError
  | some (.mods mm) =>
      if mm = [] then .ok (.succeed [])
      else .error (if low.isSome ∨ high.isSome then .typeError else .attributeError)

/-- The range test of `PickleStorage.xhdrRequest` line 406, exactly as
Python parses it: `low is None or (i >= low and high is None) or
i <= high`, evaluated left to right; reaching the last disjunct with
`high = None` compares an int against `None` — `TypeError`. -/
def xhdrCond (low high : Option Nat) (i : Nat) : Except PyErr Bool :=
  match low with
  | none => .ok true
  | some l =>
    if l ≤ i ∧ high = none then .ok true
    else
      match high with
      | some h => .ok (decide (i ≤ h))
      | none => .error .typeError

/-- `PickleStorage.xhdrRequest` (lines 401-408). -/
def PickleStorage.xhdrRequest (s : PickleStorage) (group : Str) (low high : Option Nat)
    (header : Str) : Except PyErr (DRes (List (Nat × Str))) :=
  match look s.db group with
  | none => .ok (.succeed [])
  | some (.arts m) =>
      (m.foldlM (fun r (p : Nat × Article) => do
        let c ← xhdrCond low high p.1
        if c then
          let v ← getHeaderE p.2.headers header
          Except.ok (r ++ [(p.1, v)])
        else Except.ok r) ([] : List (Nat × Str))).map DRes.succeed
  | some (.names _) => .error .attributeError
  | some (.mods mm) =>
      if mm = [] then .ok (.succeed [])
      else .error (if low.isSome then .typeError else .attributeError)

/-- `PickleStorage.articleRequest` (lines 439-455).  With a Message-ID
argument it raises `NotImplementedError`.  On the reserved keys the
membership test `index in self.db[group]` compares the integer index
against string elements/keys (`False`, so `ERR_NOARTICLE`), except for
a `None` group list where `in` raises `TypeError`. -/
def PickleStorage.articleRequest (s : PickleStorage) (group : Str) (index : Nat)
    (id? : Option Str) : Except PyErr (DRes (Nat × Str × Str)) :=
  match id? with
  | some _ => .error .notImplementedError
  | none =>
    match look s.db group with
    | none => .ok (.fail (.errCode ERR_NOGROUP))
    | some (.arts m) =>
        match look m index with
        | none => .ok (.fail (.errCode ERR_NOARTICLE))
        | some a => do
            let mid ← getHeaderE a.headers (sc "Message-ID")
            let txt ← textHeadersE a
            pure (.succeed (index, mid, txt ++ '\r' :: '\n' :: a.body))
    | some (.names (some _)) => .ok (.fail (.errCode ERR_NOARTICLE))
    | some (.names none) => .error .typeError
    | some (.mods _) => .ok (.fail (.errCode ERR_NOARTICLE))

/-- `PickleStorage.headRequest` (lines 458-467). -/
def PickleStorage.headRequest (s : PickleStorage) (group : Str) (index : Nat) :
    Except PyErr (DRes (Nat × Str × Str)) :=
  match look s.db group with
  | none => .ok (.fail (.errCode ERR_NOGROUP))
  | some (.arts m) =>
      match look m index with
      | none => .ok (.fail (.errCode ERR_NOARTICLE))
      | some a => do
          let mid ← getHeaderE a.headers (sc "Message-ID")
          let txt ← textHeadersE a
          pure (.succeed (index, mid, txt))
  | some (.names (some _)) => .ok (.fail (.errCode ERR_NOARTICLE))
  | some (.names none) => .error .typeError
  | some (.mods _) => .ok (.fail (.errCode ERR_NOARTICLE))

/-- `PickleStorage.bodyRequest` (lines 470-479). -/
def PickleStorage.bodyRequest (s : PickleStorage) (group : Str) (index : Nat) :
    Except PyErr (DRes (Nat × Str × Str)) :=
  match look s.db group with
  | none => .ok (.fail (.errCode ERR_NOGROUP))
  | some (.arts m) =>
      match look m index with
      | none => .ok (.fail (.errCode ERR_NOARTICLE))
      | some a => do
          let mid ← getHeaderE a.headers (sc "Message-ID")
          pure (.succeed (index, mid, a.body))
  | some (.names (some _)) => .ok (.fail (.errCode ERR_NOARTICLE))
  | some (.names none) => .error .typeError
  | some (.mods _) => .ok (.fail (.errCode ERR_NOARTICLE))

/-! ## NewsShelf (lines 505-749)

Modelled from the spec: the `dirdbm.Shelf` key-value store
(`twisted.persisted.dirdbm`, part of this repository but not included
under `src/`) is modelled as an association list whose byte-encoding of
keys (`group.encode("utf-8")`) is the identity, matching §4.5 of the
spec ("each group/article addressed by key in a durable map-like
store").  Writing a value into a shelf pickles it, so a later read
returns a copy: mutations applied to an article object after line 627
(`self.dbm[b'groups'][...] = g`) — in particular the Xref header added
at line 632 — are not visible through the shelf.  The model therefore
stores the pre-Xref article in the group, and the xref pair list in the
`Message-IDs` table (indices as naturals; the source stores their
decimal strings and converts back with `int`). -/

/-- `class Group` (lines 505-515): `minArticle` starts at 1,
`maxArticle` at 0. -/
structure ShelfGroup where
  name : Str
  flags : Str
  minArticle : Nat
  maxArticle : Nat
  articles : List (Nat × Article)
deriving DecidableEq, Repr

/-- A `NewsShelf` instance: the four shelf tables plus mail settings. -/
structure NewsShelf where
  groups : List (Str × ShelfGroup)
  moderators : List (Str × Str)
  subscriptions : List Str
  messageIDs : List (Str × List (Str × Nat))
  mailhost : Str
  sender : Option Str
deriving DecidableEq, Repr

/-- `NewsShelf.getModerator` (lines 584-592): the address of the first
target group found in the moderators table, else `None`. -/
def getModerator (mods : List (Str × Str)) : List Str → Option Str
  | [] => none
  | g :: gs =>
    match look mods g with
    | some a => some a
    | none => getModerator mods gs

/-- The posting loop of `NewsShelf.postRequest` (lines 617-627): each
known group files the article at `maxArticle + 1`, bumps the counter and
appends an xref pair; unknown groups are skipped. -/
def postLoop (a : Article) : List Str → List (Str × ShelfGroup) × List (Str × Nat) →
    List (Str × ShelfGroup) × List (Str × Nat)
  | [], st => st
  | g :: gs, st =>
    match look st.1 g with
    | none => postLoop a gs st
    | some G =>
        let index := G.maxArticle + 1
        let G2 : ShelfGroup := { G with maxArticle := index, articles := upd G.articles index a }
        postLoop a gs (upd st.1 g G2, st.2 ++ [(g, index)])

/-- The Xref header value built at line 632:
`'{} {}'.format(hostname-first-word, ' '.join(':'.join(pair)))`. -/
def shelfXrefHeader (env : Env) (xref : List (Str × Nat)) : Str :=
  env.host0 ++ ' ' :: joinSpace (xref.map (fun p => p.1 ++ ':' :: natStr p.2))

/-- Lines 617-634 of `NewsShelf.postRequest`: file the article, fail
with `NewsServerError('No groups carried: ...')` when no group matched,
otherwise attach the Xref header and record the Message-ID mapping. -/
def NewsShelf.postCore (env : Env) (s : NewsShelf) (a : Article) (groups : List Str) :
    Except PyErr (DRes PostVal × NewsShelf) :=
  let st := postLoop a groups (s.groups, [])
  if st.2 = [] then
    .ok (.fail (.newsError (sc "No groups carried: " ++ joinSpace groups)),
         { s with groups := st.1 })
  else do
    let a2 := { a with headers := putHeaderH a.headers (sc "Xref") (shelfXrefHeader env st.2) }
    let mid ← getHeaderE a2.headers (sc "Message-ID")
    pure (.succeed .posted,
          { s with groups := st.1, messageIDs := upd s.messageIDs mid st.2 })

/-- `NewsShelf.postRequest` (lines 604-634). -/
def NewsShelf.postRequest (env : Env) (s : NewsShelf) (message : Str) :
    Except PyErr (DRes PostVal × NewsShelf) := do
  let a ← mkArticle env (cleave message).1 (cleave message).2
  let ng ← getHeaderE a.headers (sc "Newsgroups")
  let groups := splitWS ng
  match getModerator s.moderators groups with
  | some m =>
    if m ≠ [] then do
      let appr ← getHeaderE a.headers (sc "Approved")
      if appr = [] then do
        let r ← notifyModerators env (some s.mailhost) s.sender [m] a
        pure (.succeed r, s)
      else NewsShelf.postCore env s a groups
    else NewsShelf.postCore env s a groups
  | none => NewsShelf.postCore env s a groups

/-- `NewsShelf.listRequest` (lines 573-577): one
`(name, maxArticle, minArticle, flags)` tuple per stored group. -/
def NewsShelf.listRequest (s : NewsShelf) :
    Except PyErr (DRes (List (Str × Nat × Nat × Str))) :=
  .ok (.succeed (s.groups.map (fun p =>
    (p.2.name, p.2.maxArticle, p.2.minArticle, p.2.flags))))

/-- `NewsShelf.groupRequest` (lines 677-687): count computed as
`high - low + 1` over the recorded bounds (an integer, 0 for a fresh
group where high = 0 and low = 1). -/
def NewsShelf.groupRequest (s : NewsShelf) (group : Str) :
    Except PyErr (DRes (Str × Int × Nat × Nat × Str)) :=
  match look s.groups group with
  | none => .ok (.fail (.newsError (sc "No such group: " ++ group)))
  | some g =>
      .ok (.succeed (group, (g.maxArticle : Int) - (g.minArticle : Int) + 1,
                     g.maxArticle, g.minArticle, g.flags))

/-- The shared retrieval core of `articleRequest`/`headRequest`/
`bodyRequest` (lines 704-707, 726-729, 744-747): one `try` block around
`self.dbm[b'groups'][group.encode()].articles[index]`, so a missing
group AND a missing index both produce
`NewsServerError('No such group: ' + group)`. -/
def NewsShelf.fetchArticle (s : NewsShelf) (group : Str) (index : Nat) :
    Option Article :=
  match look s.groups group with
  | none => none
  | some g => look g.articles index

/-- Resolve the optional Message-ID argument (lines 694-702 etc.):
a missing id fails with `NewsServerError('No such article: ' + id)`;
otherwise `group, index = xref[0]`. -/
def NewsShelf.resolveId (s : NewsShelf) (group : Str) (index : Nat) (id? : Option Str) :
    Except PyErr (DRes (Str × Nat)) :=
  match id? with
  | none => .ok (.succeed (group, index))
  | some i =>
    match look s.messageIDs i with
    | none => .ok (.fail (.newsError (sc "No such article: " ++ i)))
    | some [] => .error .indexError
    | some (p :: _) => .ok (.succeed p)

/-- `NewsShelf.articleRequest` (lines 694-713). -/
def NewsShelf.articleRequest (s : NewsShelf) (group : Str) (index : Nat)
    (id? : Option Str) : Except PyErr (DRes (Nat × Str × Str)) := do
  let r ← NewsShelf.resolveId s group index id?
  match r with
  | .fail e => pure (.fail e)
  | .succeed (g2, i2) =>
    match NewsShelf.fetchArticle s g2 i2 with
    | none => pure (.fail (.newsError (sc "No such group: " ++ g2)))
    | some a => do
        let mid ← getHeaderE a.headers (sc "Message-ID")
        let txt ← textHeadersE a
        pure (.succeed (i2, mid, txt ++ '\r' :: '\n' :: a.body))

/-- `NewsShelf.headRequest` (lines 716-731). -/
def NewsShelf.headRequest (s : NewsShelf) (group : Str) (index : Nat)
    (id? : Option Str) : Except PyErr (DRes (Nat × Str × Str)) := do
  let r ← NewsShelf.resolveId s group index id?
  match r with
  | .fail e => pure (.fail e)
  | .succeed (g2, i2) =>
    match NewsShelf.fetchArticle s g2 i2 with
    | none => pure (.fail (.newsError (sc "No such group: " ++ g2)))
    | some a => do
        let mid ← getHeaderE a.headers (sc "Message-ID")
        let txt ← textHeadersE a
        pure (.succeed (i2, mid, txt))

/-- `NewsShelf.bodyRequest` (lines 734-749). -/
def NewsShelf.bodyRequest (s : NewsShelf) (group : Str) (index : Nat)
    (id? : Option Str) : Except PyErr (DRes (Nat × Str × Str)) := do
  let r ← NewsShelf.resolveId s group index id?
  match r with
  | .fail e => pure (.fail e)
  | .succeed (g2, i2) =>
    match NewsShelf.fetchArticle s g2 i2 with
    | none => pure (.fail (.newsError (sc "No such group: " ++ g2)))
    | some a => do
        let mid ← getHeaderE a.headers (sc "Message-ID")
        pure (.succeed (i2, mid, a.body))

/-- `NewsShelf.xoverRequest` (lines 641-653): unknown group succeeds
with `[]`; otherwise iterate `range(low, high + 1)` with defaults
`low = 0`, `high = maxArticle`, keeping stored indices. -/
def NewsShelf.xoverRequest (s : NewsShelf) (group : Str) (low high : Option Nat) :
    Except PyErr (DRes (List (List Str))) :=
  match look s.groups group with
  | none => .ok (.succeed [])
  | some g =>
      let lo := low.getD 0
      let hi := high.getD g.maxArticle
      ((List.range' lo (hi + 1 - lo)).foldlM (fun r i => do
        match look g.articles i with
        | none => Except.ok r
        | some a => do
            let ov ← overviewE a
            Except.ok (r ++ [natStr i :: ov])) ([] : List (List Str))).map DRes.succeed

/-- `NewsShelf.xhdrRequest` (lines 656-668): unknown group succeeds with
`[]`; otherwise the correctly bounded `range(low, high + 1)` loop. -/
def NewsShelf.xhdrRequest (s : NewsShelf) (group : Str) (low high : Option Nat)
    (header : Str) : Except PyErr (DRes (List (Nat × Str))) :=
  match look s.groups group with
  | none => .ok (.succeed [])
  | some g =>
      let lo := low.getD 0
      let hi := high.getD g.maxArticle
      ((List.range' lo (hi + 1 - lo)).foldlM (fun r i => do
        match look g.articles i with
        | none => Except.ok r
        | some a => do
            let v ← getHeaderE a.headers header
            Except.ok (r ++ [(i, v)])) ([] : List (Nat × Str))).map DRes.succeed

/-! ## Concrete scenarios used by the claim theorems -/

/-- A fixed ambient environment: `msgIdCore = "MID"`, `dateStr = "DATE"`,
`hostname = "HOSTNAME"`, `host0 = "HST"`. -/
def envC : Env := ⟨sc "MID", sc "DATE", sc "HOSTNAME", sc "HST"⟩

/-- C1 state: a PickleStorage carrying `alt.test` with an empty
moderator registry (no entry for `alt.test`). -/
def c1Pickle : PickleStorage :=
  ⟨[(sc "groups", .names (some [sc "alt.test"])),
    (sc "moderators", .mods []),
    (sc "alt.test", .arts [])], none, none⟩

/-- C1 state: a NewsShelf carrying the fresh group `alt.test` with no
moderators. -/
def c1Shelf : NewsShelf :=
  ⟨[(sc "alt.test", ⟨sc "alt.test", sc "y", 1, 0, []⟩)], [], [], [], sc "mx", none⟩

/-- C1 message: `Newsgroups: alt.test`, no Message-ID, body
`"hello\nworld"`. -/
def c1Msg : Str := sc "Newsgroups: alt.test\r\n\r\nhello\nworld"

/-- C2 state: a PickleStorage whose only group `alt.fly` is moderated by
`m@h`. -/
def c2Pickle : PickleStorage :=
  ⟨[(sc "groups", .names (some [sc "alt.fly"])),
    (sc "moderators", .mods [(sc "alt.fly", sc "m@h")]),
    (sc "alt.fly", .arts [])], some (sc "mx"), some (sc "s@s")⟩

/-- A minimal stored article with subject `s1`. -/
def c4A1 : Article := ⟨[⟨sc "subject", sc "Subject", some (sc "s1")⟩], sc "b1"⟩

/-- A minimal stored article with subject `s2`. -/
def c4A2 : Article := ⟨[⟨sc "subject", sc "Subject", some (sc "s2")⟩], sc "b2"⟩

/-- C4 state: a PickleStorage whose group `gg` holds articles at
indices 1 and 2. -/
def c4Pickle : PickleStorage :=
  ⟨[(sc "groups", .names (some [sc "gg"])),
    (sc "moderators", .mods []),
    (sc "gg", .arts [(1, c4A1), (2, c4A2)])], none, none⟩

/-- C4 state: the same two articles in a NewsShelf group `gg`. -/
def c4Shelf : NewsShelf :=
  ⟨[(sc "gg", ⟨sc "gg", sc "y", 1, 2, [(1, c4A1), (2, c4A2)]⟩)], [], [], [], sc "mx", none⟩

/-- C5 state: a PickleStorage carrying the empty groups `g1` and `g2`;
both have an empty-string moderator entry, so `getModerators` succeeds
with no moderators and the post is stored. -/
def c5Pickle : PickleStorage :=
  ⟨[(sc "groups", .names (some [sc "g1", sc "g2"])),
    (sc "moderators", .mods [(sc "g1", []), (sc "g2", [])]),
    (sc "g1", .arts []), (sc "g2", .arts [])], none, none⟩

/-- C6 state: a PickleStorage carrying only `alt.test`; the unknown
group `x` has an empty-string moderator entry so that the moderator
lookup itself does not crash. -/
def c6Pickle : PickleStorage :=
  ⟨[(sc "groups", .names (some [sc "alt.test"])),
    (sc "moderators", .mods [(sc "x", [])]),
    (sc "alt.test", .arts [])], none, none⟩

/-- C8 state: a PickleStorage whose group `alt.test` holds exactly one
article, at index 1. -/
def c8Pickle : PickleStorage :=
  ⟨[(sc "groups", .names (some [sc "alt.test"])),
    (sc "moderators", .mods []),
    (sc "alt.test", .arts [(1, c4A1)])], none, none⟩

/-- C9 state: a NewsShelf whose group `g` exists but holds no articles. -/
def c9Shelf : NewsShelf :=
  ⟨[(sc "g", ⟨sc "g", sc "y", 1, 0, []⟩)], [], [], [], sc "mx", none⟩

/-- C10 state: a PickleStorage carrying only `alt.test` (so that, in
particular, no group named `groups` is carried). -/
def c10Pickle : PickleStorage :=
  ⟨[(sc "groups", .names (some [sc "alt.test"])),
    (sc "moderators", .mods []),
    (sc "alt.test", .arts [])], none, none⟩

/-- Serialise-then-reparse: the serialized output of a parsed article is
`textHeaders` plus a blank line plus the body (the full-text layout of
`articleRequest`, lines 449-450/712), fed back through the `postRequest`
cleave and the `Article` constructor. -/
def reparse (env : Env) (a : Article) : Except PyErr Article := do
  let h ← textHeadersE a
  let m := h ++ '\r' :: '\n' :: a.body
  mkArticle env (cleave m).1 (cleave m).2

/-- The article produced by parsing head `"A: x\r\n"` (note the trailing
CRLF: its final empty line is a continuation, so the header value
becomes `"x\r\n"`) with body `"b"` under `envC`. -/
def c7A : Article :=
  ⟨[⟨sc "a", sc "A", some (sc "x\r\n")⟩,
    ⟨sc "message-id", sc "Message-ID", some (sc "<MID>")⟩,
    ⟨sc "bytes", sc "Bytes", some (sc "1")⟩,
    ⟨sc "lines", sc "Lines", some (sc "0")⟩,
    ⟨sc "date", sc "Date", some (sc "DATE")⟩], sc "b"⟩

/-- The amount `PickleStorage.postRequest` files a new article at
(lines 368-371): `max(keys) + 1`, or 1 for an empty group. -/
def pickleIdx (m : List (Nat × Article)) : Nat :=
  if m = [] then 1 else pyMax (m.map Prod.fst) + 1

/-- The effect of `NewsShelf.postRequest` on one accepting group
(lines 623-625): bump `maxArticle` and file the article there. -/
def bump (a : Article) (G : ShelfGroup) : ShelfGroup :=
  { G with maxArticle := G.maxArticle + 1,
           articles := upd G.articles (G.maxArticle + 1) a }

/-- C10 witness state: a NewsShelf carrying one group `aa`. -/
def c10Shelf : NewsShelf :=
  ⟨[(sc "aa", ⟨sc "aa", sc "y", 1, 0, []⟩)], [], [], [], sc "mx", none⟩

/-- C9 witness state: a PickleStorage with group `g` holding one article
at index 2. -/
def c9Pickle : PickleStorage :=
  ⟨[(sc "groups", .names (some [sc "g"])),
    (sc "moderators", .mods []),
    (sc "g", .arts [(2, c4A1)])], none, none⟩

/-- C9 witness state: a NewsShelf with group `g` holding one article at
index 2. -/
def c9ShelfW : NewsShelf :=
  ⟨[(sc "g", ⟨sc "g", sc "y", 1, 2, [(2, c4A1)]⟩)], [], [], [], sc "mx", none⟩

/-- The article parsed from the C6 witness message `Newsgroups: x`
with body `b`. -/
def c6WArt : Article :=
  ⟨[⟨sc "newsgroups", sc "Newsgroups", some (sc "x")⟩,
    ⟨sc "message-id", sc "Message-ID", some (sc "<MID>")⟩,
    ⟨sc "bytes", sc "Bytes", some (sc "1")⟩,
    ⟨sc "lines", sc "Lines", some (sc "0")⟩,
    ⟨sc "date", sc "Date", some (sc "DATE")⟩], sc "b"⟩

/-- C3 witness message. -/
def c3Msg : Str := sc "Newsgroups: alt.test\r\n\r\nW"

/-- C3 witness shelf state: fresh group `alt.test`. -/
def c3Shelf : NewsShelf :=
  ⟨[(sc "alt.test", ⟨sc "alt.test", sc "y", 1, 0, []⟩)], [], [], [], sc "mx", none⟩

/-- The group record carried by `c3Shelf`. -/
def c3G0 : ShelfGroup := ⟨sc "alt.test", sc "y", 1, 0, []⟩

/-- The shelf state after posting the C3 witness message. -/
def c3ShelfAfter : NewsShelf :=
  match NewsShelf.postRequest envC c3Shelf c3Msg with
  | .ok p => p.2
  | .error _ => c3Shelf

/-- The article parsed from the C3 witness message. -/
def c3Art : Article :=
  match mkArticle envC (cleave c3Msg).1 (cleave c3Msg).2 with
  | .ok a => a
  | .error _ => ⟨[], []⟩

/-- C3 witness pickle state: `alt.test` already holds index 3 (with an
empty-string moderator entry so the moderator lookup succeeds with no
moderators). -/
def c3Pickle : PickleStorage :=
  ⟨[(sc "groups", .names (some [sc "alt.test"])),
    (sc "moderators", .mods [(sc "alt.test", [])]),
    (sc "alt.test", .arts [(3, c4A1)])], none, none⟩

/-- The pickle state after posting the C3 witness message. -/
def c3PickleAfter : PickleStorage :=
  match PickleStorage.postRequest envC c3Pickle c3Msg with
  | .ok p => p.2
  | .error _ => c3Pickle

/-- Does the string start with a space or a tab? -/
def startsSpaceTab : Str → Bool
  | c :: _ => c = ' ' ∨ c = '\t'
  | [] => false

/-- Does the string start with `"\r\n"`? -/
def startsCRLF : Str → Bool
  | c :: d :: _ => c = '\r' ∧ d = '\n'
  | _ => false

/-- A properly folded header value: every CRLF inside it is followed by
a space or a tab (so no trailing CRLF and no blank line). -/
def wfVal : Str → Bool
  | [] => true
  | [_] => true
  | c :: d :: rest =>
    if c = '\r' ∧ d = '\n' then
      match rest.head? with
      | some e => ((e = ' ' ∨ e = '\t') : Bool) && wfVal rest
      | none => false
    else wfVal (d :: rest)

/-- A well-formed header entry for the serialise/re-parse round trip:
its stored tuple has a value, its key is the lower-cased name, the name
contains neither CRLF nor the `': '` separator and does not begin with
space or tab, and the value is properly folded. -/
def wfEntry (e : HEntry) : Bool :=
  match e.val with
  | none => false
  | some v =>
      decide (e.key = lowerStr e.name)
      && !(hasPair '\r' '\n' e.name)
      && !(hasPair ':' ' ' e.name)
      && !(startsSpaceTab e.name)
      && wfVal v

/-- Does this header resolve to a non-empty value? -/
def hasVal (hs : List HEntry) (h : Str) : Bool :=
  match getHeaderE hs h with
  | .ok v => decide (v ≠ [])
  | .error _ => false

/-- A well-formed article for the round trip: non-empty well-formed
headers with distinct keys. -/
def wfArticle (a : Article) : Bool :=
  decide (a.headers ≠ [])
  && a.headers.all wfEntry
  && decide ((a.headers.map HEntry.key).Nodup)

/-- The serialized form of one header entry: `Name: Value`. -/
def entryLine (e : HEntry) : Str := e.name ++ ':' :: ' ' :: e.val.getD []

/-- C7 witness article: parsed from the head `"A: x\r\n\ty"` (one header
with a folded value) and body `"b"` under `envC`. -/
def c7W : Article :=
  match mkArticle envC (sc "A: x\r\n\ty") (sc "b") with
  | .ok a => a
  | .error _ => ⟨[], []⟩

/-! # Theorems

General lemmas about the embedding utilities, followed by the claim
theorems. -/

theorem look_upd_self {κ α : Type} [DecidableEq κ] (m : List (κ × α)) (k : κ) (v : α) :
    look (upd m k v) k = some v := by
  induction m with
  | nil => simp [upd, look]
  | cons p t ih =>
    obtain ⟨k', v'⟩ := p
    by_cases h : k' = k
    · subst h; simp [upd, look]
    · simp [upd, look, h, ih]

theorem look_upd_ne {κ α : Type} [DecidableEq κ] (m : List (κ × α)) (k k' : κ) (v : α)
    (h : k' ≠ k) : look (upd m k v) k' = look m k' := by
  induction m with
  | nil => simp [upd, look, Ne.symm h]
  | cons p t ih =>
    obtain ⟨k0, v0⟩ := p
    by_cases h0 : k0 = k
    · subst h0
      simp [upd, look, Ne.symm h]
    · simp only [upd, if_neg h0, look]
      by_cases h1 : k0 = k'
      · simp [h1]
      · simp [h1, ih]

theorem splitCRLF_nil : splitCRLF [] = [[]] := rfl

theorem splitCRLF_one (c : Char) : splitCRLF [c] = [[c]] := rfl

theorem splitCRLF_crlf (r : Str) : splitCRLF ('\r' :: '\n' :: r) = [] :: splitCRLF r := by
  simp [splitCRLF]

theorem splitCRLF_cons₂ (c d : Char) (r : Str) (h : ¬(c = '\r' ∧ d = '\n')) :
    splitCRLF (c :: d :: r) = consHead c (splitCRLF (d :: r)) := by
  rw [splitCRLF]
  rw [if_neg h]

theorem splitCRLF_ne_nil (l : Str) : splitCRLF l ≠ [] := by
  match l with
  | [] => simp [splitCRLF]
  | [c] => simp [splitCRLF]
  | c :: d :: r =>
    rw [splitCRLF]
    split
    · simp
    · cases h : splitCRLF (d :: r) with
      | nil => exact absurd h (splitCRLF_ne_nil (d :: r))
      | cons a as => simp [consHead]

theorem consHead_append (c : Char) (xs ys : List Str) (h : xs ≠ []) :
    consHead c (xs ++ ys) = consHead c xs ++ ys := by
  cases xs with
  | nil => exact absurd rfl h
  | cons x xs' => simp [consHead]

/-- Splitting distributes over an explicit separator occurrence. -/
theorem splitCRLF_append (a b : Str) :
    splitCRLF (a ++ '\r' :: '\n' :: b) = splitCRLF a ++ splitCRLF b := by
  match a with
  | [] => simp [splitCRLF_nil, splitCRLF_crlf]
  | [c] =>
    rw [List.cons_append, List.nil_append]
    rw [splitCRLF_cons₂ c '\r' ('\n' :: b) (by simp)]
    rw [splitCRLF_crlf, splitCRLF_one]
    simp [consHead]
  | c :: d :: a'' =>
    by_cases hcd : c = '\r' ∧ d = '\n'
    · obtain ⟨hc, hd⟩ := hcd
      subst hc; subst hd
      rw [List.cons_append, List.cons_append]
      rw [splitCRLF_crlf, splitCRLF_crlf]
      rw [splitCRLF_append a'' b]
      simp
    · rw [List.cons_append, List.cons_append]
      rw [splitCRLF_cons₂ c d _ hcd]
      rw [splitCRLF_cons₂ c d _ hcd]
      rw [← List.cons_append]
      rw [splitCRLF_append (d :: a'') b]
      exact consHead_append c _ _ (splitCRLF_ne_nil _)

/-- Joining undoes splitting, unconditionally. -/
theorem interCRLF_splitCRLF (l : Str) : interCRLF (splitCRLF l) = l := by
  match l with
  | [] => rfl
  | [c] => rfl
  | c :: d :: r =>
    by_cases hcd : c = '\r' ∧ d = '\n'
    · obtain ⟨hc, hd⟩ := hcd
      subst hc; subst hd
      rw [splitCRLF_crlf]
      have ih := interCRLF_splitCRLF r
      cases h : splitCRLF r with
      | nil => exact absurd h (splitCRLF_ne_nil r)
      | cons x xs =>
        rw [h] at ih
        simp [interCRLF, ih]
    · rw [splitCRLF_cons₂ c d r hcd]
      have ih := interCRLF_splitCRLF (d :: r)
      cases h : splitCRLF (d :: r) with
      | nil => exact absurd h (splitCRLF_ne_nil _)
      | cons x xs =>
        rw [h] at ih
        cases xs with
        | nil => simpa [consHead, interCRLF] using congrArg (c :: ·) ih
        | cons y ys => simpa [consHead, interCRLF] using congrArg (c :: ·) ih

theorem natStrGo_ne_nil (fuel n : Nat) (acc : Str) (h : acc ≠ []) :
    natStrGo fuel n acc ≠ [] := by
  induction fuel generalizing n acc with
  | zero => simpa [natStrGo] using h
  | succ f ih =>
    rw [natStrGo]
    split
    · simp
    · exact ih _ _ (by simp)

theorem natStr_ne_nil (n : Nat) : natStr n ≠ [] := by
  rw [natStr, natStrGo]
  split
  · simp
  · exact natStrGo_ne_nil _ _ _ (by simp)

theorem foldl_max_le_iff (l : List Nat) (b n : Nat) :
    l.foldl max b ≤ n ↔ b ≤ n ∧ ∀ x ∈ l, x ≤ n := by
  induction l generalizing b with
  | nil => simp
  | cons x xs ih =>
    simp only [List.foldl_cons, ih, max_le_iff, List.mem_cons]
    constructor
    · rintro ⟨⟨h1, h2⟩, h3⟩
      refine ⟨h1, ?_⟩
      rintro y (rfl | hy)
      · exact h2
      · exact h3 y hy
    · rintro ⟨h1, h2⟩
      exact ⟨⟨h1, h2 x (Or.inl rfl)⟩, fun y hy => h2 y (Or.inr hy)⟩

theorem le_pyMax_of_mem (l : List Nat) (x : Nat) (h : x ∈ l) : x ≤ pyMax l :=
  ((foldl_max_le_iff l 0 (pyMax l)).mp le_rfl).2 x h

theorem foldl_max_mem (l : List Nat) (b : Nat) :
    l.foldl max b = b ∨ l.foldl max b ∈ l := by
  induction l generalizing b with
  | nil => simp
  | cons x xs ih =>
    simp only [List.foldl_cons]
    rcases ih (max b x) with h | h
    · rcases max_choice b x with h' | h'
      · left; rw [h, h']
      · right; rw [h, h']; simp
    · right; simp [h]

theorem pyMax_mem (l : List Nat) : pyMax l ∈ l ∨ pyMax l = 0 := by
  rcases foldl_max_mem l 0 with h' | h'
  · right; exact h'
  · left; exact h'

theorem pyMin_le_of_mem (l : List Nat) (x : Nat) (h : x ∈ l) : pyMin l ≤ x := by
  match l with
  | [] => cases h
  | y :: ys =>
    have key : ∀ (zs : List Nat) (b : Nat), zs.foldl min b ≤ b ∧ ∀ z ∈ zs, zs.foldl min b ≤ z := by
      intro zs
      induction zs with
      | nil => simp
      | cons z zs ih =>
        intro b
        simp only [List.foldl_cons, List.mem_cons]
        refine ⟨le_trans (ih (min b z)).1 (min_le_left _ _), ?_⟩
        rintro w (rfl | hw)
        · exact le_trans (ih (min b w)).1 (min_le_right _ _)
        · exact (ih (min b z)).2 w hw
    rcases List.mem_cons.mp h with rfl | hx
    · exact (key ys x).1
    · exact (key ys y).2 x hx

theorem pyMin_mem (l : List Nat) (h : l ≠ []) : pyMin l ∈ l := by
  match l with
  | [] => exact absurd rfl h
  | y :: ys =>
    have key : ∀ (zs : List Nat) (b : Nat), zs.foldl min b = b ∨ zs.foldl min b ∈ zs := by
      intro zs
      induction zs with
      | nil => simp
      | cons z zs ih =>
        intro b
        simp only [List.foldl_cons]
        rcases ih (min b z) with h' | h'
        · rcases min_choice b z with h'' | h''
          · left; rw [h', h'']
          · right; rw [h', h'']; simp
        · right; simp [h']
    rcases key ys y with h' | h'
    · simp [pyMin, h']
    · simp [pyMin, h']

/-! ## Claim theorems: concrete evaluations -/

/-- C1: posting `Newsgroups: alt.test` with body `"hello\nworld"` to a
backend carrying `alt.test` with no moderator entry.  The claim says the
post succeeds with count = high = low = 1 and the body retrievable; the
PickleStorage code instead raises `TypeError` inside `getModerators`
(`moderators.extend(self.db['moderators'].get(group, None))` passes
`None` to `list.extend`).  The NewsShelf half shows the claimed
behaviour is exactly what the sibling implementation produces, i.e. the
claim describes the evident intent. -/
theorem c1_post_unmoderated_crashes :
    PickleStorage.postRequest envC c1Pickle c1Msg = .error .typeError
    ∧ (NewsShelf.postRequest envC c1Shelf c1Msg).map Prod.fst = .ok (.succeed .posted)
    ∧ (NewsShelf.postRequest envC c1Shelf c1Msg).map
        (fun p => NewsShelf.groupRequest p.2 (sc "alt.test"))
        = .ok (.ok (.succeed (sc "alt.test", 1, 1, 1, sc "y")))
    ∧ (NewsShelf.postRequest envC c1Shelf c1Msg).map
        (fun p => NewsShelf.bodyRequest p.2 (sc "alt.test") 1 none)
        = .ok (.ok (.succeed (1, sc "<MID>", sc "hello\nworld"))) :=
  ⟨rfl, rfl, rfl, rfl⟩

/-- C2: posting to the moderated group `alt.fly` (moderator `m@h`)
without an `Approved` header.  The post is diverted and nothing is
stored (the state is returned unchanged), but `getModerators` extends
the moderator list with the characters of the address, so the mail
transport is invoked with recipients `['m', '@', 'h']` instead of
`['m@h']` — the article is not sent to the moderators. -/
theorem c2_moderated_post_mails_characters :
    PickleStorage.postRequest envC c2Pickle (sc "Newsgroups: alt.fly\r\n\r\nbody")
      = .ok (.succeed (.mailed (some (sc "mx")) (sc "s@s") [sc "m", sc "@", sc "h"]), c2Pickle)
    ∧ [sc "m", sc "@", sc "h"] ≠ [sc "m@h"] := by
  decide

/-- C4: `PickleStorage.xhdrRequest` on a group holding indices 1 and 2.
With bounds `low = high = 2` the claim demands exactly `[(2, s2)]`, but
the misparenthesised test `low is None or (i >= low and high is None)
or i <= high` also admits index 1; and with `low = 3, high = None` the
final disjunct compares an int against `None`, raising `TypeError`
instead of returning `[]`.  The NewsShelf implementation of the same
operation returns exactly the claimed range. -/
theorem c4_xhdr_range_broken :
    PickleStorage.xhdrRequest c4Pickle (sc "gg") (some 2) (some 2) (sc "Subject")
      = .ok (.succeed [(1, sc "s1"), (2, sc "s2")])
    ∧ PickleStorage.xhdrRequest c4Pickle (sc "gg") (some 3) none (sc "Subject")
      = .error .typeError
    ∧ NewsShelf.xhdrRequest c4Shelf (sc "gg") (some 2) (some 2) (sc "Subject")
      = .ok (.succeed [(2, sc "s2")]) := by
  decide

/-- C5: a post accepted by the two groups `g1` and `g2` (first index 1
in each).  The Xref header attached to the stored article is
`"HST g1:1g2:1"`: `u''.join` concatenates the pairs with no separator,
so the pairs are not space-separated as the claim requires
(`"HST g1:1 g2:1"`). -/
theorem c5_xref_pairs_not_space_separated :
    (PickleStorage.postRequest envC c5Pickle (sc "Newsgroups: g1 g2\r\n\r\nB")).map Prod.fst
      = .ok (.succeed .posted)
    ∧ (PickleStorage.postRequest envC c5Pickle (sc "Newsgroups: g1 g2\r\n\r\nB")).map
        (fun p => PickleStorage.xhdrRequest p.2 (sc "g1") none none (sc "Xref"))
      = .ok (.ok (.succeed [(1, sc "HST g1:1g2:1")]))
    ∧ sc "HST g1:1g2:1" ≠ sc "HST g1:1 g2:1" := by
  decide

/-- C6 counterexample: posting `Newsgroups: x` where `x` is unknown to
the PickleStorage backend (and has an empty moderator entry so the
moderator lookup does not crash).  The post fails, but the failure
payload is the bare `None` of `defer.fail(None)` (line 376), not a
distinguishable `NoGroupsCarried` error kind such as NewsShelf's
`NewsServerError('No groups carried: x')`. -/
theorem c6_counterexample_pickle_fails_with_none :
    PickleStorage.postRequest envC c6Pickle (sc "Newsgroups: x\r\n\r\nb")
      = .ok (.fail .pyNone, c6Pickle)
    ∧ NFail.pyNone ≠ NFail.newsError (sc "No groups carried: x") := by
  decide

/-- C7 counterexample: the head block `"A: x\r\n"` (missing all four
defaulted headers) parses successfully — the trailing CRLF makes the
final empty line a continuation, storing value `"x\r\n"` — and all four
headers are synthesised; but serialising and re-parsing does not return
the same article: the serialized header block contains `"A: x\r\n\r\n"`,
so the cleave splits inside the headers, and the synthesized headers
end up in the body of the re-parsed article. -/
theorem c7_counterexample_reparse_differs :
    mkArticle envC (sc "A: x\r\n") (sc "b") = .ok c7A
    ∧ getHeaderE c7A.headers (sc "Message-ID") = .ok (sc "<MID>")
    ∧ getHeaderE c7A.headers (sc "Bytes") = .ok (sc "1")
    ∧ getHeaderE c7A.headers (sc "Lines") = .ok (sc "0")
    ∧ getHeaderE c7A.headers (sc "Date") = .ok (sc "DATE")
    ∧ reparse envC c7A ≠ .ok c7A := by
  decide

/-- C8 counterexample: a PickleStorage group holding exactly one article
at index 1 (so its maximum assigned index is 1), for which `listRequest`
reports the tuple `(alt.test, 2, 1, y)`: the second component is
`max(keys) + 1 = 2`, not the maximum assigned index 1. -/
theorem c8_counterexample_list_reports_max_plus_one :
    look c8Pickle.db (sc "alt.test") = some (.arts [(1, c4A1)])
    ∧ PickleStorage.listRequest c8Pickle = .ok (.succeed [(sc "alt.test", 2, 1, sc "y")])
    ∧ pyMax [1] = 1
    ∧ (2 : Nat) ≠ 1 :=
  ⟨rfl, rfl, rfl, by decide⟩

/-- C9 counterexample: on NewsShelf, looking up index 1 in the known but
empty group `g` fails with `NewsServerError('No such group: g')` for all
three retrieval operations — the same group-not-found error kind
produced for the genuinely unknown group `nope` — rather than with a
distinguishable article-not-found error as the claim requires. -/
theorem c9_counterexample_missing_index_reports_no_such_group :
    NewsShelf.bodyRequest c9Shelf (sc "g") 1 none
      = .ok (.fail (.newsError (sc "No such group: g")))
    ∧ NewsShelf.headRequest c9Shelf (sc "g") 1 none
      = .ok (.fail (.newsError (sc "No such group: g")))
    ∧ NewsShelf.articleRequest c9Shelf (sc "g") 1 none
      = .ok (.fail (.newsError (sc "No such group: g")))
    ∧ NewsShelf.bodyRequest c9Shelf (sc "nope") 1 none
      = .ok (.fail (.newsError (sc "No such group: nope")))
    ∧ NFail.newsError (sc "No such group: g") ≠ NFail.newsError (sc "No such article: 1") :=
  ⟨rfl, rfl, rfl, rfl, by decide⟩

/-- C10 counterexample: `groups` is not a carried group of the backend
(the carried groups are exactly `[alt.test]`), yet
`xoverRequest('groups', None, None)` and `xhdrRequest` on it raise
`AttributeError` (the reserved db entry holds the group-name list, and
`self.db[group].keys()` fails on a list) instead of succeeding with an
empty list. -/
theorem c10_counterexample_reserved_key_crashes :
    look c10Pickle.db (sc "groups") = some (.names (some [sc "alt.test"]))
    ∧ (sc "groups") ∉ [sc "alt.test"]
    ∧ PickleStorage.xoverRequest c10Pickle (sc "groups") none none = .error .attributeError
    ∧ PickleStorage.xhdrRequest c10Pickle (sc "groups") none none (sc "Subject")
      = .error .attributeError := by
  decide

/-! ## Amended claim theorems and supporting lemmas -/

theorem exbind_ok {ε α β : Type} (a : α) (f : α → Except ε β) :
    (Except.ok a >>= f : Except ε β) = f a := rfl

theorem exbind_err {ε α β : Type} (e : ε) (f : α → Except ε β) :
    (Except.error e >>= f : Except ε β) = Except.error e := rfl

theorem expure {ε α : Type} (a : α) : (pure a : Except ε α) = Except.ok a := rfl

theorem exmap_ok {ε α β : Type} (f : α → β) (a : α) :
    (f <$> (Except.ok a : Except ε α) : Except ε β) = Except.ok (f a) := rfl

theorem exmap_err {ε α β : Type} (f : α → β) (e : ε) :
    (f <$> (Except.error e : Except ε α) : Except ε β) = Except.error e := rfl

theorem postLoop_all_unknown (a : Article) (gs : List Str)
    (st : List (Str × ShelfGroup) × List (Str × Nat))
    (h : ∀ g ∈ gs, look st.1 g = none) : postLoop a gs st = st := by
  induction gs with
  | nil => rfl
  | cons g rest ih =>
    rw [postLoop]
    rw [h g (by simp)]
    exact ih (fun g' hg' => h g' (by simp [hg']))

/-- C6 (amended): on NewsShelf, a post whose `Newsgroups` header names
only groups unknown to the backend — none of them moderated — fails
with `NewsServerError('No groups carried: <groups>')`, the
distinguishable no-groups-carried error kind, and leaves the state
unchanged.  (On PickleStorage the same situation yields a bare
`defer.fail(None)`, see the counterexample.) -/
theorem c6_amended_shelf_fails_no_groups_carried
    (env : Env) (s : NewsShelf) (msg ng : Str) (a : Article)
    (hart : mkArticle env (cleave msg).1 (cleave msg).2 = .ok a)
    (hng : getHeaderE a.headers (sc "Newsgroups") = .ok ng)
    (hunknown : ∀ g ∈ splitWS ng, look s.groups g = none)
    (hmod : getModerator s.moderators (splitWS ng) = none) :
    NewsShelf.postRequest env s msg
      = .ok (.fail (.newsError (sc "No groups carried: " ++ joinSpace (splitWS ng))), s) := by
  rw [NewsShelf.postRequest]
  rw [hart]
  simp only [exbind_ok]
  rw [hng]
  simp only [exbind_ok]
  rw [hmod]
  rw [NewsShelf.postCore]
  rw [postLoop_all_unknown a (splitWS ng) (s.groups, []) hunknown]
  simp

/-- C6 amended-theorem witness: a shelf carrying `alt.test` receives a
post naming only the unknown group `x`. -/
theorem c6_amended_witness :
    (mkArticle envC (cleave (sc "Newsgroups: x\r\n\r\nb")).1
        (cleave (sc "Newsgroups: x\r\n\r\nb")).2 = .ok c6WArt)
    ∧ (getHeaderE c6WArt.headers (sc "Newsgroups") = .ok (sc "x"))
    ∧ (∀ g ∈ splitWS (sc "x"), look c1Shelf.groups g = none)
    ∧ (getModerator c1Shelf.moderators (splitWS (sc "x")) = none)
    ∧ NewsShelf.postRequest envC c1Shelf (sc "Newsgroups: x\r\n\r\nb")
        = .ok (.fail (.newsError (sc "No groups carried: " ++ joinSpace (splitWS (sc "x")))), c1Shelf) :=
  ⟨rfl, rfl, by decide, rfl,
   c6_amended_shelf_fails_no_groups_carried envC c1Shelf (sc "Newsgroups: x\r\n\r\nb")
     (sc "x") c6WArt rfl rfl (by decide) rfl⟩

/-- C9 (amended): across `articleRequest`, `headRequest` and
`bodyRequest`, PickleStorage distinguishes the two not-found cases —
`ERR_NOGROUP` (2) for an unknown group and `ERR_NOARTICLE` (3) for a
known group without the requested index — while NewsShelf fails with
the same `NewsServerError('No such group: ...')` for both cases. -/
theorem c9_amended_error_kinds
    (sp : PickleStorage) (ss : NewsShelf) (gU gK : Str) (i : Nat)
    (m : List (Nat × Article)) (G : ShelfGroup)
    (hpu : look sp.db gU = none)
    (hpk : look sp.db gK = some (.arts m))
    (hpi : look m i = none)
    (hsu : look ss.groups gU = none)
    (hsk : look ss.groups gK = some G)
    (hsi : look G.articles i = none) :
    PickleStorage.articleRequest sp gU i none = .ok (.fail (.errCode ERR_NOGROUP))
    ∧ PickleStorage.headRequest sp gU i = .ok (.fail (.errCode ERR_NOGROUP))
    ∧ PickleStorage.bodyRequest sp gU i = .ok (.fail (.errCode ERR_NOGROUP))
    ∧ PickleStorage.articleRequest sp gK i none = .ok (.fail (.errCode ERR_NOARTICLE))
    ∧ PickleStorage.headRequest sp gK i = .ok (.fail (.errCode ERR_NOARTICLE))
    ∧ PickleStorage.bodyRequest sp gK i = .ok (.fail (.errCode ERR_NOARTICLE))
    ∧ ERR_NOGROUP ≠ ERR_NOARTICLE
    ∧ NewsShelf.articleRequest ss gU i none = .ok (.fail (.newsError (sc "No such group: " ++ gU)))
    ∧ NewsShelf.headRequest ss gU i none = .ok (.fail (.newsError (sc "No such group: " ++ gU)))
    ∧ NewsShelf.bodyRequest ss gU i none = .ok (.fail (.newsError (sc "No such group: " ++ gU)))
    ∧ NewsShelf.articleRequest ss gK i none = .ok (.fail (.newsError (sc "No such group: " ++ gK)))
    ∧ NewsShelf.headRequest ss gK i none = .ok (.fail (.newsError (sc "No such group: " ++ gK)))
    ∧ NewsShelf.bodyRequest ss gK i none = .ok (.fail (.newsError (sc "No such group: " ++ gK))) := by
  refine ⟨?_, ?_, ?_, ?_, ?_, ?_, by decide, ?_, ?_, ?_, ?_, ?_, ?_⟩ <;>
    simp [PickleStorage.articleRequest, PickleStorage.headRequest, PickleStorage.bodyRequest,
      NewsShelf.articleRequest, NewsShelf.headRequest, NewsShelf.bodyRequest,
      NewsShelf.resolveId, NewsShelf.fetchArticle, hpu, hpk, hpi, hsu, hsk, hsi,
      exbind_ok, exbind_err, expure, exmap_ok, exmap_err]

/-- C9 amended-theorem witness at concrete states: unknown group `nope`,
known group `g` with no article at index 1. -/
theorem c9_amended_witness :
    (look c9Pickle.db (sc "nope") = none)
    ∧ (look c9Pickle.db (sc "g") = some (.arts [(2, c4A1)]))
    ∧ (look [(2, c4A1)] 1 = none)
    ∧ (look c9ShelfW.groups (sc "nope") = none)
    ∧ (look c9ShelfW.groups (sc "g") = some ⟨sc "g", sc "y", 1, 2, [(2, c4A1)]⟩)
    ∧ (look (⟨sc "g", sc "y", 1, 2, [(2, c4A1)]⟩ : ShelfGroup).articles 1 = none)
    ∧ PickleStorage.bodyRequest c9Pickle (sc "nope") 1 = .ok (.fail (.errCode ERR_NOGROUP))
    ∧ PickleStorage.bodyRequest c9Pickle (sc "g") 1 = .ok (.fail (.errCode ERR_NOARTICLE))
    ∧ NewsShelf.bodyRequest c9ShelfW (sc "g") 1 none
        = .ok (.fail (.newsError (sc "No such group: " ++ sc "g"))) :=
  ⟨rfl, rfl, rfl, rfl, rfl, rfl,
   (c9_amended_error_kinds c9Pickle c9ShelfW (sc "nope") (sc "g") 1 [(2, c4A1)]
      ⟨sc "g", sc "y", 1, 2, [(2, c4A1)]⟩ rfl rfl rfl rfl rfl rfl).2.2.1,
   (c9_amended_error_kinds c9Pickle c9ShelfW (sc "nope") (sc "g") 1 [(2, c4A1)]
      ⟨sc "g", sc "y", 1, 2, [(2, c4A1)]⟩ rfl rfl rfl rfl rfl rfl).2.2.2.2.2.1,
   (c9_amended_error_kinds c9Pickle c9ShelfW (sc "nope") (sc "g") 1 [(2, c4A1)]
      ⟨sc "g", sc "y", 1, 2, [(2, c4A1)]⟩ rfl rfl rfl rfl rfl rfl).2.2.2.2.2.2.2.2.2.2.2.2⟩

/-- C10 (amended): `xoverRequest` and `xhdrRequest` succeed with the
empty list for every group name that is absent from the backend state —
on PickleStorage, absent as a key of the shared db (which excludes the
reserved keys `groups` and `moderators`, see the counterexample); on
NewsShelf, absent from the groups table. -/
theorem c10_amended_unknown_group_empty
    (sp : PickleStorage) (ss : NewsShelf) (g : Str) (low high : Option Nat) (header : Str)
    (hp : look sp.db g = none) (hs : look ss.groups g = none) :
    PickleStorage.xoverRequest sp g low high = .ok (.succeed [])
    ∧ PickleStorage.xhdrRequest sp g low high header = .ok (.succeed [])
    ∧ NewsShelf.xoverRequest ss g low high = .ok (.succeed [])
    ∧ NewsShelf.xhdrRequest ss g low high header = .ok (.succeed []) := by
  refine ⟨?_, ?_, ?_, ?_⟩ <;>
    simp [PickleStorage.xoverRequest, PickleStorage.xhdrRequest,
      NewsShelf.xoverRequest, NewsShelf.xhdrRequest, hp, hs]

/-- C10 amended-theorem witness: the unknown name `zzz` with bounds
`(some 1, none)`. -/
theorem c10_amended_witness :
    (look c10Pickle.db (sc "zzz") = none)
    ∧ (look c10Shelf.groups (sc "zzz") = none)
    ∧ PickleStorage.xoverRequest c10Pickle (sc "zzz") (some 1) none = .ok (.succeed [])
    ∧ PickleStorage.xhdrRequest c10Pickle (sc "zzz") (some 1) none (sc "From") = .ok (.succeed [])
    ∧ NewsShelf.xoverRequest c10Shelf (sc "zzz") (some 1) none = .ok (.succeed [])
    ∧ NewsShelf.xhdrRequest c10Shelf (sc "zzz") (some 1) none (sc "From") = .ok (.succeed []) :=
  ⟨rfl, rfl,
   (c10_amended_unknown_group_empty c10Pickle c10Shelf (sc "zzz") (some 1) none (sc "From")
      rfl rfl).1,
   (c10_amended_unknown_group_empty c10Pickle c10Shelf (sc "zzz") (some 1) none (sc "From")
      rfl rfl).2.1,
   (c10_amended_unknown_group_empty c10Pickle c10Shelf (sc "zzz") (some 1) none (sc "From")
      rfl rfl).2.2.1,
   (c10_amended_unknown_group_empty c10Pickle c10Shelf (sc "zzz") (some 1) none (sc "From")
      rfl rfl).2.2.2⟩

theorem pyMax_mem_of_ne_nil (l : List Nat) (h : l ≠ []) : pyMax l ∈ l := by
  rcases pyMax_mem l with h1 | h1
  · exact h1
  · cases l with
    | nil => exact absurd rfl h
    | cons x xs =>
      have hx : x ≤ pyMax (x :: xs) := le_pyMax_of_mem _ _ (by simp)
      rw [h1] at hx ⊢
      have : x = 0 := Nat.le_zero.mp hx
      simp [this]

theorem pickleListLoop (db : List (Str × DBVal)) (mm : List (Str × Str))
    (hmm : look db (sc "moderators") = some (.mods mm)) :
    ∀ (gs : List Str) (acc : List (Str × Nat × Nat × Str)),
    (∀ g ∈ gs, ∃ m, look db g = some (DBVal.arts m)) →
    ∃ r, gs.foldlM (pickleListStep db) acc = Except.ok r
      ∧ (∀ x ∈ acc, x ∈ r)
      ∧ r.length = acc.length + gs.length
      ∧ ∀ g ∈ gs, ∀ m, look db g = some (DBVal.arts m) →
          (g, (if m = [] then 0 else pyMax (m.map Prod.fst) + 1),
              (if m = [] then 0 else pyMin (m.map Prod.fst)),
              (if (look mm g).isSome then sc "m" else sc "y")) ∈ r := by
  intro gs
  induction gs with
  | nil =>
    intro acc _
    exact ⟨acc, rfl, fun x hx => hx, by simp, by simp⟩
  | cons g rest ih =>
    intro acc hall
    obtain ⟨m, hm⟩ := hall g (by simp)
    have hstep : pickleListStep db acc g
        = Except.ok (acc ++ [(g, (if m = [] then 0 else pyMax (m.map Prod.fst) + 1),
            (if m = [] then 0 else pyMin (m.map Prod.fst)),
            (if (look mm g).isSome then sc "m" else sc "y"))]) := by
      rw [pickleListStep]
      rw [hm]
      rw [readMods]
      rw [hmm]
      by_cases hm0 : m = []
      · simp [hm0, exbind_ok]
      · simp [hm0, exbind_ok]
    obtain ⟨r, hr, hacc, hlen, hmem⟩ := ih (acc ++ [(g, _, _, _)])
      (fun g' hg' => hall g' (by simp [hg']))
    refine ⟨r, ?_, ?_, ?_, ?_⟩
    · rw [List.foldlM_cons]
      rw [hstep]
      simpa [exbind_ok] using hr
    · intro x hx
      exact hacc x (by simp [hx])
    · rw [hlen]
      simp
      omega
    · intro g' hg' m' hm'
      rcases List.mem_cons.mp hg' with rfl | hg2
      · have : look db g' = some (DBVal.arts m) := hm
        rw [hm'] at this
        injection this with this
        injection this with this
        subst this
        exact hacc _ (by simp)
      · exact hmem g' hg2 m' hm'

/-- C8 (amended): `listRequest` returns one tuple per known group; on
NewsShelf the second and third components are the recorded
`maxArticle`/`minArticle` of the group, while on PickleStorage the
second component is `max(assigned indices) + 1` (so one more than the
maximum assigned article index; 0 for an empty group) and the third is
the minimum assigned index (0 for an empty group), with flag `'m'`
exactly for groups with a moderator entry. -/
theorem c8_amended_list_characterisation
    (sp : PickleStorage) (gs : List Str) (mm : List (Str × Str)) (ss : NewsShelf)
    (hgs : look sp.db (sc "groups") = some (.names (some gs)))
    (hmm : look sp.db (sc "moderators") = some (.mods mm))
    (hall : ∀ g ∈ gs, ∃ m, look sp.db g = some (DBVal.arts m)) :
    (∃ r, PickleStorage.listRequest sp = .ok (.succeed r)
      ∧ r.length = gs.length
      ∧ ∀ g ∈ gs, ∀ m, look sp.db g = some (DBVal.arts m) →
          ∃ hi lo fl, (g, hi, lo, fl) ∈ r
            ∧ (m = [] → hi = 0 ∧ lo = 0)
            ∧ (m ≠ [] → hi = pyMax (m.map Prod.fst) + 1
                 ∧ hi - 1 ∈ m.map Prod.fst ∧ (∀ k ∈ m.map Prod.fst, k ≤ hi - 1)
                 ∧ lo ∈ m.map Prod.fst ∧ (∀ k ∈ m.map Prod.fst, lo ≤ k))
            ∧ fl = (if (look mm g).isSome then sc "m" else sc "y"))
    ∧ (∃ r2, NewsShelf.listRequest ss = .ok (.succeed r2)
        ∧ r2.length = ss.groups.length
        ∧ ∀ p ∈ ss.groups, (p.2.name, p.2.maxArticle, p.2.minArticle, p.2.flags) ∈ r2) := by
  constructor
  · obtain ⟨r, hr, _, hlen, hmem⟩ := pickleListLoop sp.db mm hmm gs [] hall
    refine ⟨r, ?_, by simpa using hlen, ?_⟩
    · rw [PickleStorage.listRequest]
      rw [hgs]
      simp only [exbind_ok]
      rw [hr]
      rfl
    · intro g hg m hm
      refine ⟨_, _, _, hmem g hg m hm, ?_, ?_, rfl⟩
      · intro h0
        simp [h0]
      · intro h0
        have hkeys : m.map Prod.fst ≠ [] := by
          simpa using h0
        rw [if_neg h0, if_neg h0]
        refine ⟨rfl, ?_, ?_, ?_, ?_⟩
        · simpa using pyMax_mem_of_ne_nil _ hkeys
        · intro k hk
          simpa using le_pyMax_of_mem _ _ hk
        · exact pyMin_mem _ hkeys
        · intro k hk
          exact pyMin_le_of_mem _ _ hk
  · refine ⟨ss.groups.map (fun (p : Str × ShelfGroup) =>
      (p.2.name, p.2.maxArticle, p.2.minArticle, p.2.flags)), rfl, by simp, ?_⟩
    intro p hp
    exact List.mem_map_of_mem _ hp

/-- C8 amended-theorem witness: the C8 state (one group `alt.test`
holding index 1, no moderators), checked through the characterisation. -/
theorem c8_amended_witness :
    (look c8Pickle.db (sc "groups") = some (.names (some [sc "alt.test"])))
    ∧ (look c8Pickle.db (sc "moderators") = some (.mods []))
    ∧ ((∃ r, PickleStorage.listRequest c8Pickle = .ok (.succeed r)
      ∧ r.length = [sc "alt.test"].length
      ∧ ∀ g ∈ [sc "alt.test"], ∀ m, look c8Pickle.db g = some (DBVal.arts m) →
          ∃ hi lo fl, (g, hi, lo, fl) ∈ r
            ∧ (m = [] → hi = 0 ∧ lo = 0)
            ∧ (m ≠ [] → hi = pyMax (m.map Prod.fst) + 1
                 ∧ hi - 1 ∈ m.map Prod.fst ∧ (∀ k ∈ m.map Prod.fst, k ≤ hi - 1)
                 ∧ lo ∈ m.map Prod.fst ∧ (∀ k ∈ m.map Prod.fst, lo ≤ k))
            ∧ fl = (if (look ([] : List (Str × Str)) g).isSome then sc "m" else sc "y"))
    ∧ (∃ r2, NewsShelf.listRequest c10Shelf = .ok (.succeed r2)
        ∧ r2.length = c10Shelf.groups.length
        ∧ ∀ p ∈ c10Shelf.groups, (p.2.name, p.2.maxArticle, p.2.minArticle, p.2.flags) ∈ r2)) :=
  ⟨rfl, rfl,
   c8_amended_list_characterisation c8Pickle [sc "alt.test"] [] c10Shelf rfl rfl
     (by intro g hg; simp at hg; subst hg; exact ⟨[(1, c4A1)], rfl⟩)⟩

/-! ## Lemmas for the posting loops (claim C3) -/

theorem look_isSome_iff {κ α : Type} [DecidableEq κ] (m : List (κ × α)) (k : κ) :
    (look m k).isSome ↔ k ∈ m.map Prod.fst := by
  induction m with
  | nil => simp [look]
  | cons p t ih =>
    obtain ⟨k0, v0⟩ := p
    by_cases h : k0 = k
    · subst h
      simp [look]
    · simp [look, h, ih, Ne.symm h]

theorem upd_upd {κ α : Type} [DecidableEq κ] (m : List (κ × α)) (k : κ) (v w : α) :
    upd (upd m k v) k w = upd m k w := by
  induction m with
  | nil => simp [upd]
  | cons p t ih =>
    obtain ⟨k0, v0⟩ := p
    by_cases h : k0 = k
    · subst h
      simp [upd]
    · simp [upd, h, ih]

theorem notifyModerators_shape (env : Env) (mh : Option Str) (sd : Option Str)
    (ms : List Str) (a : Article) (r : PostVal)
    (h : notifyModerators env mh sd ms a = .ok r) : ∃ snd, r = .mailed mh snd ms := by
  unfold notifyModerators at h
  cases h1 : getHeaderE a.headers (sc "Newsgroups") with
  | error e => rw [h1] at h; exact absurd h (by simp [exbind_err])
  | ok v1 =>
    rw [h1] at h
    simp only [exbind_ok] at h
    cases h2 : getHeaderE a.headers (sc "Subject") with
    | error e => rw [h2] at h; exact absurd h (by simp [exbind_err])
    | ok v2 =>
      rw [h2] at h
      simp only [exbind_ok, expure] at h
      exact ⟨_, ((Except.ok.injEq _ _).mp h).symm⟩

theorem postLoop_look_not_mem (a : Article) :
    ∀ (gs : List Str) (st : List (Str × ShelfGroup) × List (Str × Nat)) (g : Str),
      g ∉ gs → look (postLoop a gs st).1 g = look st.1 g := by
  intro gs
  induction gs with
  | nil => intro st g _; rfl
  | cons g0 rest ih =>
    intro st g h
    have hne : g ≠ g0 := fun hh => h (by simp [hh])
    have hrest : g ∉ rest := fun hh => h (by simp [hh])
    rw [postLoop]
    cases h0 : look st.1 g0 with
    | none => exact ih _ g hrest
    | some G =>
      rw [ih _ g hrest]
      exact look_upd_ne _ _ _ _ hne

theorem postLoop_look_mem (a : Article) :
    ∀ (gs : List Str) (st : List (Str × ShelfGroup) × List (Str × Nat)) (g : Str)
      (G : ShelfGroup),
      gs.Nodup → g ∈ gs → look st.1 g = some G →
      look (postLoop a gs st).1 g = some (bump a G) := by
  intro gs
  induction gs with
  | nil => intro st g G _ h _; cases h
  | cons g0 rest ih =>
    intro st g G hnd hg hG
    rw [postLoop]
    rcases List.mem_cons.mp hg with rfl | hg2
    · rw [hG]
      have hnotin : g ∉ rest := (List.nodup_cons.mp hnd).1
      rw [postLoop_look_not_mem a rest _ g hnotin]
      exact look_upd_self _ _ _
    · cases h0 : look st.1 g0 with
      | none => exact ih _ g G (List.nodup_cons.mp hnd).2 hg2 hG
      | some G0 =>
        have hne : g ≠ g0 := fun hh => (List.nodup_cons.mp hnd).1 (hh ▸ hg2)
        refine ih _ g G (List.nodup_cons.mp hnd).2 hg2 ?_
        rw [look_upd_ne _ _ _ _ hne]
        exact hG

theorem postCore_success_groups {env : Env} {s : NewsShelf} {a : Article}
    {groups : List Str} {s2 : NewsShelf}
    (h : NewsShelf.postCore env s a groups = .ok (.succeed .posted, s2)) :
    s2.groups = (postLoop a groups (s.groups, [])).1 := by
  simp only [NewsShelf.postCore] at h
  by_cases hx : (postLoop a groups (s.groups, [])).2 = []
  · rw [if_pos hx] at h
    cases h
  · rw [if_neg hx] at h
    cases hm : getHeaderE (putHeaderH a.headers (sc "Xref")
        (shelfXrefHeader env (postLoop a groups (s.groups, [])).2)) (sc "Message-ID") with
    | error e => rw [hm] at h; exact absurd h (by simp [exbind_err])
    | ok mid =>
      rw [hm] at h
      simp only [exbind_ok, expure] at h
      have h1 := (Except.ok.injEq _ _ |>.mp h)
      have h2 := congrArg Prod.snd h1
      simp only at h2
      rw [← h2]

theorem shelf_post_success_groups
    (env : Env) (s s2 : NewsShelf) (msg ng : Str) (a : Article)
    (hart : mkArticle env (cleave msg).1 (cleave msg).2 = .ok a)
    (hng : getHeaderE a.headers (sc "Newsgroups") = .ok ng)
    (hpost : NewsShelf.postRequest env s msg = .ok (.succeed .posted, s2)) :
    s2.groups = (postLoop a (splitWS ng) (s.groups, [])).1 := by
  rw [NewsShelf.postRequest, hart] at hpost
  simp only [exbind_ok] at hpost
  rw [hng] at hpost
  simp only [exbind_ok] at hpost
  cases hmod : getModerator s.moderators (splitWS ng) with
  | none =>
    simp only [hmod] at hpost
    exact postCore_success_groups hpost
  | some mstr =>
    simp only [hmod] at hpost
    split at hpost
    · cases happr : getHeaderE a.headers (sc "Approved") with
      | error e => rw [happr] at hpost; exact absurd hpost (by simp [exbind_err])
      | ok ap =>
        rw [happr] at hpost
        simp only [exbind_ok] at hpost
        split at hpost
        · cases hn : notifyModerators env (some s.mailhost) s.sender [mstr] a with
          | error e => rw [hn] at hpost; exact absurd hpost (by simp [exbind_err])
          | ok r =>
            rw [hn] at hpost
            simp only [exbind_ok, expure] at hpost
            obtain ⟨snd, rfl⟩ := notifyModerators_shape _ _ _ _ _ _ hn
            cases hpost
        · exact postCore_success_groups hpost
    · exact postCore_success_groups hpost

theorem pickleLoop_look_not_mem (a : Article) :
    ∀ (gs : List Str) (st st' : List (Str × DBVal) × List (Str × Nat)) (g : Str),
      g ∉ gs → gs.foldlM (pickleStep a) st = .ok st' →
      look st'.1 g = look st.1 g := by
  intro gs
  induction gs with
  | nil =>
    intro st st' g _ hfold
    cases hfold
    rfl
  | cons g0 rest ih =>
    intro st st' g hg hfold
    have hne : g ≠ g0 := fun hh => hg (by simp [hh])
    have hrest : g ∉ rest := fun hh => hg (by simp [hh])
    rw [List.foldlM_cons] at hfold
    cases h0 : pickleStep a st g0 with
    | error e => rw [h0] at hfold; exact absurd hfold (by simp [exbind_err])
    | ok st1 =>
      rw [h0] at hfold
      simp only [exbind_ok] at hfold
      rw [ih st1 st' g hrest hfold]
      rw [pickleStep] at h0
      cases hl : look st.1 g0 with
      | none =>
        rw [hl] at h0
        cases h0
        rfl
      | some v =>
        rw [hl] at h0
        cases v with
        | names gs2 => rw [show DBVal.names gs2 = DBVal.names gs2 from rfl] at h0; cases h0
        | mods mm => cases h0
        | arts m =>
          simp only at h0
          cases h0
          exact look_upd_ne _ _ _ _ hne

theorem pickleLoop_xref (a : Article) :
    ∀ (gs : List Str) (st st' : List (Str × DBVal) × List (Str × Nat)),
      gs.foldlM (pickleStep a) st = .ok st' →
      ∃ delta, st'.2 = st.2 ++ delta ∧ List.Sublist (delta.map Prod.fst) gs := by
  intro gs
  induction gs with
  | nil =>
    intro st st' hfold
    cases hfold
    exact ⟨[], by simp, by simp⟩
  | cons g0 rest ih =>
    intro st st' hfold
    rw [List.foldlM_cons] at hfold
    cases h0 : pickleStep a st g0 with
    | error e => rw [h0] at hfold; exact absurd hfold (by simp [exbind_err])
    | ok st1 =>
      rw [h0] at hfold
      simp only [exbind_ok] at hfold
      obtain ⟨delta, hd, hsub⟩ := ih st1 st' hfold
      rw [pickleStep] at h0
      cases hl : look st.1 g0 with
      | none =>
        rw [hl] at h0
        cases h0
        exact ⟨delta, hd, List.Sublist.cons g0 hsub⟩
      | some v =>
        rw [hl] at h0
        cases v with
        | names gs2 => cases h0
        | mods mm => cases h0
        | arts m =>
          simp only at h0
          cases h0
          refine ⟨(g0, if m = [] then 1 else pyMax (m.map Prod.fst) + 1) :: delta, ?_, ?_⟩
          · rw [hd]
            simp
          · simpa using List.Sublist.cons₂ g0 hsub

theorem pickleLoop_look_mem (a : Article) :
    ∀ (gs : List Str) (st st' : List (Str × DBVal) × List (Str × Nat)) (g : Str)
      (m : List (Nat × Article)),
      gs.Nodup → g ∈ gs → look st.1 g = some (.arts m) →
      gs.foldlM (pickleStep a) st = .ok st' →
      look st'.1 g = some (.arts (upd m (pickleIdx m) a))
      ∧ (g, pickleIdx m) ∈ st'.2 := by
  intro gs
  induction gs with
  | nil => intro st st' g m _ h _ _; cases h
  | cons g0 rest ih =>
    intro st st' g m hnd hg hm hfold
    rw [List.foldlM_cons] at hfold
    cases h0 : pickleStep a st g0 with
    | error e => rw [h0] at hfold; exact absurd hfold (by simp [exbind_err])
    | ok st1 =>
      rw [h0] at hfold
      simp only [exbind_ok] at hfold
      rcases List.mem_cons.mp hg with rfl | hg2
      · rw [pickleStep, hm] at h0
        simp only at h0
        cases h0
        have hnotin : g ∉ rest := (List.nodup_cons.mp hnd).1
        constructor
        · rw [pickleLoop_look_not_mem a rest _ st' g hnotin hfold]
          have : (if m = [] then 1 else pyMax (m.map Prod.fst) + 1) = pickleIdx m := rfl
          rw [this]
          exact look_upd_self _ _ _
        · obtain ⟨delta, hd, _⟩ := pickleLoop_xref a rest _ st' hfold
          rw [hd]
          have : (if m = [] then 1 else pyMax (m.map Prod.fst) + 1) = pickleIdx m := rfl
          rw [this]
          simp
      · have hne : g ≠ g0 := fun hh => (List.nodup_cons.mp hnd).1 (hh ▸ hg2)
        refine ih st1 st' g m (List.nodup_cons.mp hnd).2 hg2 ?_ hfold
        rw [pickleStep] at h0
        cases hl : look st.1 g0 with
        | none => rw [hl] at h0; cases h0; exact hm
        | some v =>
          rw [hl] at h0
          cases v with
          | names gs2 => cases h0
          | mods mm => cases h0
          | arts m0 =>
            simp only at h0
            cases h0
            rw [look_upd_ne _ _ _ _ hne]
            exact hm

theorem overwrite_look_not_mem (a2 : Article) :
    ∀ (xs : List (Str × Nat)) (db : List (Str × DBVal)) (g : Str),
      g ∉ xs.map Prod.fst →
      look (xs.foldl (pickleOverwrite a2) db) g = look db g := by
  intro xs
  induction xs with
  | nil => intro db g _; rfl
  | cons p rest ih =>
    intro db g hg
    have hne : g ≠ p.1 := fun hh => hg (by simp [hh])
    have hrest : g ∉ rest.map Prod.fst := fun hh => hg (by simp [hh])
    rw [List.foldl_cons]
    rw [ih _ g hrest]
    rw [pickleOverwrite]
    cases hl : look db p.1 with
    | none => rfl
    | some v =>
      cases v with
      | names gs2 => rfl
      | mods mm => rfl
      | arts m => exact look_upd_ne _ _ _ _ hne

theorem overwrite_look_mem (a2 : Article) :
    ∀ (xs : List (Str × Nat)) (db : List (Str × DBVal)) (g : Str) (i : Nat)
      (m : List (Nat × Article)),
      (xs.map Prod.fst).Nodup → (g, i) ∈ xs → look db g = some (.arts m) →
      look (xs.foldl (pickleOverwrite a2) db) g = some (.arts (upd m i a2)) := by
  intro xs
  induction xs with
  | nil => intro db g i m _ h _; cases h
  | cons p rest ih =>
    intro db g i m hnd hgi hm
    rw [List.foldl_cons]
    rcases List.mem_cons.mp hgi with rfl | hg2
    · have hpair : (∀ x : Nat, (g, x) ∉ rest) ∧ (List.map Prod.fst rest).Nodup := by
        simpa using hnd
      have hnotin : g ∉ rest.map Prod.fst := by
        intro hmem
        obtain ⟨q, hq, hq1⟩ := List.mem_map.mp hmem
        have hgq : (g, q.2) ∈ rest := by rwa [← hq1, Prod.mk.eta]
        exact hpair.1 q.2 hgq
      rw [overwrite_look_not_mem a2 rest _ g hnotin]
      rw [pickleOverwrite]
      simp only
      rw [hm]
      exact look_upd_self _ _ _
    · have hpair : (∀ x : Nat, (p.1, x) ∉ rest) ∧ (List.map Prod.fst rest).Nodup := by
        simpa using hnd
      have hne : g ≠ p.1 := fun hh => hpair.1 i (hh ▸ hg2)
      refine ih (pickleOverwrite a2 db p) g i m hpair.2 hg2 ?_
      rw [pickleOverwrite]
      cases hl : look db p.1 with
      | none => exact hm
      | some v =>
        cases v with
        | names gs2 => exact hm
        | mods mm => exact hm
        | arts m0 =>
          rw [look_upd_ne _ _ _ _ hne]
          exact hm

theorem picklePostCore_success {env : Env} {s : PickleStorage} {a : Article}
    {groups : List Str} {s2 : PickleStorage}
    (h : picklePostCore env s a groups = .ok (.succeed .posted, s2)) :
    ∃ st : List (Str × DBVal) × List (Str × Nat),
      groups.foldlM (pickleStep a) (s.db, []) = .ok st
      ∧ st.2 ≠ []
      ∧ s2.db = st.2.foldl (pickleOverwrite
          { a with headers := putHeaderH a.headers (sc "Xref") (pickleXrefHeader env st.2) }) st.1 := by
  rw [picklePostCore] at h
  cases hf : groups.foldlM (pickleStep a) ((s.db, []) : List (Str × DBVal) × List (Str × Nat)) with
  | error e => rw [hf] at h; exact absurd h (by simp [exbind_err])
  | ok st =>
    rw [hf] at h
    simp only [exbind_ok] at h
    by_cases hx : st.2 = []
    · rw [if_pos hx] at h
      simp only [expure] at h
      cases h
    · rw [if_neg hx] at h
      simp only [expure] at h
      refine ⟨st, rfl, hx, ?_⟩
      have h1 := (Except.ok.injEq _ _).mp h
      have h2 := congrArg Prod.snd h1
      simp only at h2
      rw [← h2]

theorem pickle_post_success_db
    (env : Env) (s s2 : PickleStorage) (msg ng : Str) (a : Article)
    (hart : mkArticle env (cleave msg).1 (cleave msg).2 = .ok a)
    (hng : getHeaderE a.headers (sc "Newsgroups") = .ok ng)
    (hpost : PickleStorage.postRequest env s msg = .ok (.succeed .posted, s2)) :
    ∃ st : List (Str × DBVal) × List (Str × Nat),
      (splitWS ng).foldlM (pickleStep a) (s.db, []) = .ok st
      ∧ st.2 ≠ []
      ∧ s2.db = st.2.foldl (pickleOverwrite
          { a with headers := putHeaderH a.headers (sc "Xref") (pickleXrefHeader env st.2) }) st.1 := by
  rw [PickleStorage.postRequest, hart] at hpost
  simp only [exbind_ok] at hpost
  rw [hng] at hpost
  simp only [exbind_ok] at hpost
  cases hrm : readMods s.db with
  | error e => rw [hrm] at hpost; exact absurd hpost (by simp [exbind_err])
  | ok mm =>
    rw [hrm] at hpost
    simp only [exbind_ok] at hpost
    cases hgm : getModerators mm (splitWS ng) with
    | error e => rw [hgm] at hpost; exact absurd hpost (by simp [exbind_err])
    | ok ms =>
      rw [hgm] at hpost
      simp only [exbind_ok] at hpost
      split at hpost
      · cases happr : getHeaderE a.headers (sc "Approved") with
        | error e => rw [happr] at hpost; exact absurd hpost (by simp [exbind_err])
        | ok ap =>
          rw [happr] at hpost
          simp only [exbind_ok] at hpost
          split at hpost
          · cases hn : notifyModerators env s.mailhost s.sender ms a with
            | error e => rw [hn] at hpost; exact absurd hpost (by simp [exbind_err])
            | ok r =>
              rw [hn] at hpost
              simp only [exbind_ok, expure] at hpost
              obtain ⟨snd, rfl⟩ := notifyModerators_shape _ _ _ _ _ _ hn
              cases hpost
          · exact picklePostCore_success hpost
      · exact picklePostCore_success hpost

/-- C3: for every successful (non-diverted, accepted) post, each
accepting group files the article at exactly its previous maximum index
plus one (1 for an empty group), the counter advances by exactly one,
previously stored indices are untouched, the new index was never used
before (under the invariant that stored indices do not exceed the
recorded maximum), which is preserved — and non-accepting groups do not
change.  Stated for NewsShelf (first half: `previous maximum` is the
recorded `maxArticle`, starting at 0) and for PickleStorage (second
half: `previous maximum` is `max(assigned indices)`, and the index is
`max + 1`, or 1 when the group is empty). -/
theorem c3_index_assignment
    (env : Env) (s s2 : NewsShelf) (msg ng : Str) (a : Article)
    (envP : Env) (sp sp2 : PickleStorage) (msgP ngP : Str) (aP : Article)
    (hart : mkArticle env (cleave msg).1 (cleave msg).2 = .ok a)
    (hng : getHeaderE a.headers (sc "Newsgroups") = .ok ng)
    (hnd : (splitWS ng).Nodup)
    (hpost : NewsShelf.postRequest env s msg = .ok (.succeed .posted, s2))
    (hartP : mkArticle envP (cleave msgP).1 (cleave msgP).2 = .ok aP)
    (hngP : getHeaderE aP.headers (sc "Newsgroups") = .ok ngP)
    (hndP : (splitWS ngP).Nodup)
    (hpostP : PickleStorage.postRequest envP sp msgP = .ok (.succeed .posted, sp2)) :
    (∀ g G, look s.groups g = some G →
      (g ∈ splitWS ng →
        look s2.groups g = some (bump a G)
        ∧ (bump a G).maxArticle = G.maxArticle + 1
        ∧ look (bump a G).articles (G.maxArticle + 1) = some a
        ∧ (∀ i, i ≠ G.maxArticle + 1 →
             look (bump a G).articles i = look G.articles i)
        ∧ ((∀ i, (look G.articles i).isSome → i ≤ G.maxArticle) →
             look G.articles (G.maxArticle + 1) = none
             ∧ ∀ i, (look (bump a G).articles i).isSome → i ≤ (bump a G).maxArticle))
      ∧ (g ∉ splitWS ng → look s2.groups g = some G))
    ∧ (∀ g m, look sp.db g = some (.arts m) →
      (g ∈ splitWS ngP →
        ∃ a2, look sp2.db g = some (.arts (upd m (pickleIdx m) a2))
          ∧ (m = [] → pickleIdx m = 1)
          ∧ (m ≠ [] → pickleIdx m = pyMax (m.map Prod.fst) + 1
               ∧ pyMax (m.map Prod.fst) ∈ m.map Prod.fst
               ∧ ∀ k ∈ m.map Prod.fst, k ≤ pyMax (m.map Prod.fst))
          ∧ (∀ k ∈ m.map Prod.fst, k < pickleIdx m)
          ∧ look m (pickleIdx m) = none
          ∧ look (upd m (pickleIdx m) a2) (pickleIdx m) = some a2
          ∧ (∀ i, i ≠ pickleIdx m → look (upd m (pickleIdx m) a2) i = look m i))
      ∧ (g ∉ splitWS ngP → look sp2.db g = some (.arts m))) := by
  constructor
  · intro g G hG
    have hgroups := shelf_post_success_groups env s s2 msg ng a hart hng hpost
    constructor
    · intro hmem
      have hb := postLoop_look_mem a (splitWS ng) (s.groups, []) g G hnd hmem hG
      refine ⟨by rw [hgroups]; exact hb, rfl, look_upd_self _ _ _, ?_, ?_⟩
      · intro i hi
        exact look_upd_ne _ _ _ _ hi
      · intro hinv
        constructor
        · cases hlk : look G.articles (G.maxArticle + 1) with
          | none => rfl
          | some x =>
            have := hinv (G.maxArticle + 1) (by simp [hlk])
            omega
        · intro i hi
          by_cases hieq : i = G.maxArticle + 1
          · subst hieq
            simp [bump]
          · have : (look G.articles i).isSome := by
              rw [show (bump a G).articles = upd G.articles (G.maxArticle + 1) a from rfl] at hi
              rwa [look_upd_ne _ _ _ _ hieq] at hi
            have := hinv i this
            show i ≤ G.maxArticle + 1
            omega
    · intro hmem
      rw [hgroups]
      rw [postLoop_look_not_mem a (splitWS ng) _ g hmem]
      exact hG
  · intro g m hm
    obtain ⟨st, hfold, hne0, hdb⟩ :=
      pickle_post_success_db envP sp sp2 msgP ngP aP hartP hngP hpostP
    obtain ⟨delta, hdelta, hsub⟩ := pickleLoop_xref aP (splitWS ngP) _ st hfold
    have hdelta2 : st.2 = delta := by simpa using hdelta
    have hkeysnd : (st.2.map Prod.fst).Nodup := by
      rw [hdelta2]
      exact List.Nodup.sublist hsub hndP
    constructor
    · intro hmem
      obtain ⟨hlook, hxref⟩ :=
        pickleLoop_look_mem aP (splitWS ngP) (sp.db, []) st g m hndP hmem hm hfold
      have hklt : ∀ k ∈ m.map Prod.fst, k < pickleIdx m := by
        intro k hk
        have hm0 : m ≠ [] := by
          intro h0
          rw [h0] at hk
          cases hk
        rw [pickleIdx, if_neg hm0]
        have := le_pyMax_of_mem _ _ hk
        omega
      refine ⟨{ aP with headers := putHeaderH aP.headers (sc "Xref") (pickleXrefHeader envP st.2) },
        ?_, ?_, ?_, hklt, ?_, look_upd_self _ _ _, ?_⟩
      · rw [hdb]
        have hov := overwrite_look_mem
          { aP with headers := putHeaderH aP.headers (sc "Xref") (pickleXrefHeader envP st.2) }
          st.2 st.1 g (pickleIdx m) (upd m (pickleIdx m) aP) hkeysnd hxref hlook
        rw [upd_upd] at hov
        exact hov
      · intro h0
        rw [pickleIdx, if_pos h0]
      · intro h0
        have hkeys : m.map Prod.fst ≠ [] := by simpa using h0
        refine ⟨by rw [pickleIdx, if_neg h0], pyMax_mem_of_ne_nil _ hkeys, ?_⟩
        intro k hk
        exact le_pyMax_of_mem _ _ hk
      · cases hlk : look m (pickleIdx m) with
        | none => rfl
        | some x =>
          have hmemk : pickleIdx m ∈ m.map Prod.fst :=
            (look_isSome_iff m (pickleIdx m)).mp (by simp [hlk])
          have := hklt _ hmemk
          omega
      · intro i hi
        exact look_upd_ne _ _ _ _ hi
    · intro hmem
      rw [hdb]
      have h1 : g ∉ st.2.map Prod.fst := by
        rw [hdelta2]
        intro hh
        exact hmem (List.Sublist.subset hsub hh)
      rw [overwrite_look_not_mem _ st.2 st.1 g h1]
      rw [pickleLoop_look_not_mem aP (splitWS ngP) _ st g hmem hfold]
      exact hm

/-- C3 witness: the index-assignment theorem applied at a concrete shelf
(fresh group, next index 1) and a concrete pickle store (group holding
index 3, next index 4). -/
theorem c3_witness :
    (mkArticle envC (cleave c3Msg).1 (cleave c3Msg).2 = .ok c3Art)
    ∧ (getHeaderE c3Art.headers (sc "Newsgroups") = .ok (sc "alt.test"))
    ∧ (splitWS (sc "alt.test")).Nodup
    ∧ (NewsShelf.postRequest envC c3Shelf c3Msg = .ok (.succeed .posted, c3ShelfAfter))
    ∧ (PickleStorage.postRequest envC c3Pickle c3Msg = .ok (.succeed .posted, c3PickleAfter))
    ∧ (look c3Shelf.groups (sc "alt.test") = some c3G0)
    ∧ (look c3Pickle.db (sc "alt.test") = some (.arts [(3, c4A1)]))
    ∧ ((sc "alt.test") ∈ splitWS (sc "alt.test"))
    ∧ look c3ShelfAfter.groups (sc "alt.test") = some (bump c3Art c3G0)
    ∧ (∃ a2, look c3PickleAfter.db (sc "alt.test")
         = some (.arts (upd [(3, c4A1)] (pickleIdx [(3, c4A1)]) a2))) :=
  ⟨rfl, rfl, by decide, rfl, rfl, rfl, rfl, by decide,
   (((c3_index_assignment envC c3Shelf c3ShelfAfter c3Msg (sc "alt.test") c3Art
        envC c3Pickle c3PickleAfter c3Msg (sc "alt.test") c3Art
        rfl rfl (by decide) rfl rfl rfl (by decide) rfl).1
      (sc "alt.test") c3G0 rfl).1 (by decide)).1,
   Exists.imp (fun a2 h => h.1)
     (((c3_index_assignment envC c3Shelf c3ShelfAfter c3Msg (sc "alt.test") c3Art
          envC c3Pickle c3PickleAfter c3Msg (sc "alt.test") c3Art
          rfl rfl (by decide) rfl rfl rfl (by decide) rfl).2
        (sc "alt.test") [(3, c4A1)] rfl).1 (by decide))⟩

/-! ## Character-level lemmas for the round trip (claim C7) -/

theorem hasPair_cons₂ (x y c d : Char) (l : Str) (h : ¬(c = x ∧ d = y)) :
    hasPair x y (c :: d :: l) = hasPair x y (d :: l) := by
  rw [hasPair]
  rw [if_neg h]

theorem hasPair_head (x y c d : Char) (l : Str) (h : hasPair x y (c :: d :: l) = false) :
    ¬(c = x ∧ d = y) := by
  intro hcd
  rw [hasPair, if_pos hcd] at h
  cases h

theorem hasPair_tail (x y c : Char) (l : Str) (h : hasPair x y (c :: l) = false) :
    hasPair x y l = false := by
  cases l with
  | nil => rfl
  | cons d l2 =>
    by_cases hcd : c = x ∧ d = y
    · rw [hasPair, if_pos hcd] at h
      cases h
    · rwa [hasPair_cons₂ x y c d l2 hcd] at h

theorem hasPair_crlf_append (p q : Str)
    (hp : hasPair '\r' '\n' p = false) (hq : hasPair '\r' '\n' q = false)
    (hq0 : q.head? ≠ some '\n') :
    hasPair '\r' '\n' (p ++ q) = false := by
  induction p with
  | nil => simpa using hq
  | cons c p' ih =>
    cases p' with
    | nil =>
      cases q with
      | nil => rfl
      | cons d q' =>
        have hcd : ¬(c = '\r' ∧ d = '\n') := by
          rintro ⟨h1, h2⟩
          exact hq0 (by simp [h2])
        rw [List.singleton_append]
        rw [hasPair_cons₂ _ _ _ _ _ hcd]
        exact hq
    | cons c2 p'' =>
      have hcd : ¬(c = '\r' ∧ c2 = '\n') := hasPair_head _ _ _ _ _ hp
      rw [List.cons_append, List.cons_append]
      rw [hasPair_cons₂ _ _ _ _ _ hcd]
      rw [← List.cons_append]
      exact ih (hasPair_tail _ _ _ _ hp)

theorem hasBlank_three (l : Str) (h : l.length ≤ 3) : hasBlank l = false := by
  match l with
  | [] => rfl
  | [_] => rfl
  | [_, _] => rfl
  | [_, _, _] => rfl
  | _ :: _ :: _ :: _ :: _ => simp at h

theorem hasBlank_cons₂_ne (c d : Char) (l : Str) (h : ¬(c = '\r' ∧ d = '\n')) :
    hasBlank (c :: d :: l) = hasBlank (d :: l) := by
  match l with
  | [] => rfl
  | [_] => rfl
  | e :: f :: l2 =>
    rw [hasBlank]
    rw [if_neg (by rintro ⟨h1, h2, _⟩; exact h ⟨h1, h2⟩)]

theorem hasBlank_cons_ne_cr (c : Char) (l : Str) (h : c ≠ '\r') :
    hasBlank (c :: l) = hasBlank l := by
  match l with
  | [] => rfl
  | [_] => rfl
  | [_, _] => rfl
  | d :: e :: f :: l2 =>
    rw [hasBlank]
    rw [if_neg (by rintro ⟨h1, _⟩; exact h h1)]

theorem hasBlank_tail (c : Char) (l : Str) (h : hasBlank (c :: l) = false) :
    hasBlank l = false := by
  match l with
  | [] => rfl
  | [_] => rfl
  | [_, _] => rfl
  | d :: e :: f :: l2 =>
    rw [hasBlank] at h
    by_cases hc : c = '\r' ∧ d = '\n' ∧ e = '\r' ∧ f = '\n'
    · rw [if_pos hc] at h
      cases h
    · rw [if_neg hc] at h
      exact h

theorem endsCRLF_nil : endsCRLF [] = false := rfl

theorem endsCRLF_one (c : Char) : endsCRLF [c] = false := rfl

theorem endsCRLF_two (a b : Char) :
    endsCRLF [a, b] = (decide (a = '\r') && decide (b = '\n')) := by
  rw [endsCRLF]
  by_cases ha : a = '\r' <;> by_cases hb : b = '\n' <;> simp [ha, hb]

theorem endsCRLF_cons (c : Char) (l : Str) (h : 2 ≤ l.length) :
    endsCRLF (c :: l) = endsCRLF l := by
  match l with
  | [] => simp at h
  | [_] => simp at h
  | x :: y :: l2 => exact rfl

theorem endsCRLF_tail (c : Char) (l : Str) (h : endsCRLF (c :: l) = false) :
    endsCRLF l = false := by
  match l with
  | [] => rfl
  | [_] => rfl
  | x :: y :: l2 => rw [← endsCRLF_cons c _ (by simp)]; exact h

theorem endsCRLF_append_two (l : Str) (a b : Char) :
    endsCRLF (l ++ [a, b]) = endsCRLF [a, b] := by
  induction l with
  | nil => rfl
  | cons c l' ih =>
    rw [List.cons_append]
    rw [endsCRLF_cons c (l' ++ [a, b]) (by simp)]
    exact ih

theorem startsCRLF_append (l r : Str) (h : startsCRLF l = false) (hne : l ≠ [])
    (hr : r.head? ≠ some '\n') : startsCRLF (l ++ r) = false := by
  match l with
  | [] => exact absurd rfl hne
  | [a] =>
    match r with
    | [] => rfl
    | b :: r' =>
      rw [List.singleton_append, startsCRLF]
      simp only [decide_eq_false_iff_not]
      rintro ⟨h1, h2⟩
      exact hr (by simp [h2])
  | a :: b :: l' =>
    rw [List.cons_append, List.cons_append]
    rw [startsCRLF] at h ⊢
    exact h

theorem hasBlank_crlf_cons (X : Str) (h0 : startsCRLF X = false) (h1 : hasBlank X = false) :
    hasBlank ('\r' :: '\n' :: X) = false := by
  match X with
  | [] => rfl
  | [a] => rfl
  | a :: b :: X' =>
    rw [hasBlank]
    rw [if_neg (by
      rintro ⟨-, -, h3, h4⟩
      rw [startsCRLF] at h0
      simp [h3, h4] at h0)]
    rw [hasBlank_cons_ne_cr '\n' _ (by decide)]
    exact h1

theorem hasBlank_line_then (l X : Str) (h1 : hasBlank l = false) (h2 : endsCRLF l = false)
    (hX : hasBlank ('\r' :: '\n' :: X) = false) :
    hasBlank (l ++ '\r' :: '\n' :: X) = false := by
  match l with
  | [] => exact hX
  | [c] =>
    rw [List.singleton_append]
    rw [hasBlank_cons₂_ne c '\r' _ (by simp)]
    exact hX
  | [c, d] =>
    have hcd : ¬(c = '\r' ∧ d = '\n') := by
      rw [endsCRLF_two] at h2
      simpa using h2
    rw [show ([c, d] ++ '\r' :: '\n' :: X) = (c :: d :: '\r' :: '\n' :: X) by simp]
    rw [hasBlank]
    rw [if_neg (by rintro ⟨hc, hd, -⟩; exact hcd ⟨hc, hd⟩)]
    rw [show (d :: '\r' :: '\n' :: X) = ([d] ++ '\r' :: '\n' :: X) by simp]
    exact hasBlank_line_then [d] X rfl rfl hX
  | c :: d :: e :: l' =>
    have h1t : hasBlank (d :: e :: l') = false := hasBlank_tail _ _ h1
    have h2t : endsCRLF (d :: e :: l') = false := endsCRLF_tail _ _ h2
    have ih := hasBlank_line_then (d :: e :: l') X h1t h2t hX
    match l' with
    | [] =>
      rw [show ([c, d, e] ++ '\r' :: '\n' :: X) = (c :: d :: e :: '\r' :: '\n' :: X) by simp]
      rw [hasBlank]
      rw [if_neg (by rintro ⟨-, -, -, h4⟩; exact absurd h4 (by decide))]
      simpa using ih
    | f :: l'' =>
      by_cases hc : c = '\r' ∧ d = '\n' ∧ e = '\r' ∧ f = '\n'
      · rw [hasBlank, if_pos hc] at h1
        cases h1
      · rw [show ((c :: d :: e :: f :: l'') ++ '\r' :: '\n' :: X)
            = (c :: d :: e :: f :: (l'' ++ '\r' :: '\n' :: X)) by simp]
        rw [hasBlank]
        rw [if_neg hc]
        simpa using ih

theorem findBlank_pad (I body : Str) (h : hasBlank (I ++ ['\r', '\n', '\r']) = false) :
    findBlank (I ++ '\r' :: '\n' :: '\r' :: '\n' :: body) = some I.length := by
  match I with
  | [] =>
    rw [List.nil_append, findBlank, if_pos ⟨rfl, rfl, rfl, rfl⟩]
    rfl
  | [a] =>
    rw [List.singleton_append, findBlank]
    rw [if_neg (by rintro ⟨-, h2, -⟩; exact absurd h2 (by decide))]
    rw [findBlank, if_pos ⟨rfl, rfl, rfl, rfl⟩]
    rfl
  | [a, b] =>
    rw [show ([a, b] ++ '\r' :: '\n' :: '\r' :: '\n' :: body)
        = (a :: b :: '\r' :: '\n' :: ('\r' :: '\n' :: body)) by simp]
    rw [findBlank]
    rw [if_neg (by
      rintro ⟨ha, hb, -⟩
      rw [show ([a, b] ++ ['\r', '\n', '\r']) = (a :: b :: '\r' :: '\n' :: ['\r']) by simp,
        hasBlank, if_pos ⟨ha, hb, rfl, rfl⟩] at h
      cases h)]
    rw [show (b :: '\r' :: '\n' :: '\r' :: '\n' :: body)
        = ([b] ++ '\r' :: '\n' :: '\r' :: '\n' :: body) by simp]
    rw [findBlank_pad [b] body (hasBlank_tail _ _ (by simpa using h))]
    rfl
  | [a, b, e] =>
    rw [show ([a, b, e] ++ '\r' :: '\n' :: '\r' :: '\n' :: body)
        = (a :: b :: e :: '\r' :: ('\n' :: '\r' :: '\n' :: body)) by simp]
    rw [findBlank]
    rw [if_neg (by rintro ⟨-, -, -, h4⟩; exact absurd h4 (by decide))]
    rw [show (b :: e :: '\r' :: '\n' :: '\r' :: '\n' :: body)
        = ([b, e] ++ '\r' :: '\n' :: '\r' :: '\n' :: body) by simp]
    rw [findBlank_pad [b, e] body (hasBlank_tail _ _ (by simpa using h))]
    rfl
  | a :: b :: e :: f :: I' =>
    rw [show ((a :: b :: e :: f :: I') ++ '\r' :: '\n' :: '\r' :: '\n' :: body)
        = (a :: b :: e :: f :: (I' ++ '\r' :: '\n' :: '\r' :: '\n' :: body)) by simp]
    rw [findBlank]
    rw [if_neg (by
      intro hc
      rw [show ((a :: b :: e :: f :: I') ++ ['\r', '\n', '\r'])
          = (a :: b :: e :: f :: (I' ++ ['\r', '\n', '\r'])) by simp,
        hasBlank, if_pos hc] at h
      cases h)]
    rw [show (b :: e :: f :: (I' ++ '\r' :: '\n' :: '\r' :: '\n' :: body))
        = ((b :: e :: f :: I') ++ '\r' :: '\n' :: '\r' :: '\n' :: body) by simp]
    rw [findBlank_pad (b :: e :: f :: I') body (hasBlank_tail _ _ (by simpa using h))]
    rfl

theorem wfVal_unfold_crlf (e : Char) (rest' : Str)
    (h : wfVal ('\r' :: '\n' :: e :: rest') = true) :
    (e = ' ' ∨ e = '\t') ∧ wfVal (e :: rest') = true := by
  rw [wfVal, if_pos ⟨rfl, rfl⟩] at h
  simp only [List.head?_cons] at h
  simp only [Bool.and_eq_true, decide_eq_true_eq] at h
  exact h

theorem wfVal_unfold_ne (c d : Char) (rest : Str) (hcd : ¬(c = '\r' ∧ d = '\n'))
    (h : wfVal (c :: d :: rest) = true) : wfVal (d :: rest) = true := by
  rw [wfVal, if_neg hcd] at h
  exact h

theorem wfVal_hasBlank (v : Str) (h : wfVal v = true) : hasBlank v = false := by
  match v with
  | [] => rfl
  | [_] => rfl
  | c :: d :: rest =>
    by_cases hcd : c = '\r' ∧ d = '\n'
    · obtain ⟨hc, hd⟩ := hcd
      subst hc; subst hd
      match rest with
      | [] => rw [wfVal, if_pos ⟨rfl, rfl⟩] at h; cases h
      | [e] => rfl
      | e :: f :: rest'' =>
        obtain ⟨he, hw⟩ := wfVal_unfold_crlf e (f :: rest'') h
        rw [hasBlank]
        rw [if_neg (by
          rintro ⟨-, -, h3, -⟩
          rcases he with he | he <;> simp [he] at h3)]
        rw [hasBlank_cons_ne_cr '\n' _ (by decide)]
        exact wfVal_hasBlank (e :: f :: rest'') hw
    · have hw := wfVal_unfold_ne c d rest hcd h
      match rest with
      | [] => rfl
      | [e] => rfl
      | e :: f :: rest'' =>
        rw [hasBlank]
        rw [if_neg (by rintro ⟨h1, h2, -⟩; exact hcd ⟨h1, h2⟩)]
        exact wfVal_hasBlank (d :: e :: f :: rest'') hw

theorem wfVal_not_endsCRLF (v : Str) (h : wfVal v = true) : endsCRLF v = false := by
  match v with
  | [] => rfl
  | [_] => rfl
  | c :: d :: rest =>
    by_cases hcd : c = '\r' ∧ d = '\n'
    · obtain ⟨hc, hd⟩ := hcd
      subst hc; subst hd
      match rest with
      | [] => rw [wfVal, if_pos ⟨rfl, rfl⟩] at h; cases h
      | [e] =>
        rw [endsCRLF_cons _ _ (by simp), endsCRLF_two]
        simp
      | e :: f :: rest'' =>
        obtain ⟨he, hw⟩ := wfVal_unfold_crlf e (f :: rest'') h
        rw [endsCRLF_cons _ _ (by simp), endsCRLF_cons _ _ (by simp)]
        exact wfVal_not_endsCRLF (e :: f :: rest'') hw
    · have hw := wfVal_unfold_ne c d rest hcd h
      match rest with
      | [] =>
        rw [endsCRLF_two]
        simp only [Bool.and_eq_false_iff, decide_eq_false_iff_not]
        by_cases hc : c = '\r'
        · exact Or.inr (fun hd => hcd ⟨hc, hd⟩)
        · exact Or.inl hc
      | e :: rest' =>
        rw [endsCRLF_cons _ _ (by simp)]
        exact wfVal_not_endsCRLF (d :: e :: rest') hw

theorem splitCRLF_head_of_ne (c : Char) (l : Str) (hc : c ≠ '\r') :
    ∃ t ws, splitCRLF (c :: l) = (c :: t) :: ws := by
  match l with
  | [] => exact ⟨[], [], rfl⟩
  | d :: l' =>
    rw [splitCRLF_cons₂ c d l' (by rintro ⟨h1, -⟩; exact hc h1)]
    cases hs : splitCRLF (d :: l') with
    | nil => exact absurd hs (splitCRLF_ne_nil _)
    | cons w ws => exact ⟨w, ws, rfl⟩

theorem wfVal_cont (v : Str) (h : wfVal v = true) :
    ∀ w ∈ (splitCRLF v).tail, startsSpaceTab w = true := by
  match v with
  | [] => intro w hw; simp [splitCRLF] at hw
  | [_] => intro w hw; simp [splitCRLF] at hw
  | c :: d :: rest =>
    by_cases hcd : c = '\r' ∧ d = '\n'
    · obtain ⟨hc, hd⟩ := hcd
      subst hc; subst hd
      match rest with
      | [] => rw [wfVal, if_pos ⟨rfl, rfl⟩] at h; cases h
      | e :: rest' =>
        obtain ⟨he, hw⟩ := wfVal_unfold_crlf e rest' h
        rw [splitCRLF_crlf]
        intro w hmem
        simp only [List.tail_cons] at hmem
        have hene : e ≠ '\r' := by rcases he with he | he <;> simp [he]
        obtain ⟨t, ws, hsp⟩ := splitCRLF_head_of_ne e rest' hene
        rw [hsp] at hmem
        rcases List.mem_cons.mp hmem with hw1 | hw2
        · subst hw1
          rw [startsSpaceTab]
          simpa using he
        · exact wfVal_cont (e :: rest') hw w (by rw [hsp]; simpa using hw2)
    · have hw := wfVal_unfold_ne c d rest hcd h
      rw [splitCRLF_cons₂ c d rest hcd]
      cases hs : splitCRLF (d :: rest) with
      | nil => exact absurd hs (splitCRLF_ne_nil _)
      | cons w ws =>
        intro x hx
        simp only [consHead, List.tail_cons] at hx
        exact wfVal_cont (d :: rest) hw x (by rw [hs]; simpa using hx)

theorem wfEntry_elim (e : HEntry) (h : wfEntry e = true) :
    ∃ v, e.val = some v ∧ e.key = lowerStr e.name ∧
      hasPair '\r' '\n' e.name = false ∧ hasPair ':' ' ' e.name = false ∧
      startsSpaceTab e.name = false ∧ wfVal v = true := by
  rw [wfEntry] at h
  cases hv : e.val with
  | none => rw [hv] at h; cases h
  | some v =>
    rw [hv] at h
    simp only [Bool.and_eq_true, decide_eq_true_eq, Bool.not_eq_true'] at h
    exact ⟨v, rfl, h.1.1.1.1, h.1.1.1.2, h.1.1.2, h.1.2, h.2⟩

theorem sep_nopair (n v : Str) (hn : hasPair '\r' '\n' n = false) :
    hasPair '\r' '\n' (n ++ ':' :: ' ' :: v.take 1) = false := by
  apply hasPair_crlf_append n _ hn _ (by simp)
  cases v with
  | nil => rfl
  | cons x v' =>
    rw [List.take, List.take]
    rw [hasPair_cons₂ _ _ _ _ _ (by simp), hasPair_cons₂ _ _ _ _ _ (by simp)]
    rfl

theorem hasBlank_append_nopair (p v : Str)
    (h1 : hasPair '\r' '\n' (p ++ v.take 1) = false) (h2 : hasBlank v = false) :
    hasBlank (p ++ v) = false := by
  match p with
  | [] => simpa using h2
  | [c] =>
    match v with
    | [] => rfl
    | [_] => rfl
    | [_, _] => rfl
    | x :: y :: z :: v' =>
      rw [List.singleton_append]
      rw [hasBlank]
      rw [if_neg (by
        rintro ⟨hc, hx, -⟩
        exact absurd ⟨hc, hx⟩ (hasPair_head _ _ _ _ _ (by simpa using h1)))]
      exact h2
  | c :: c2 :: p' =>
    have hcd : ¬(c = '\r' ∧ c2 = '\n') :=
      hasPair_head _ _ _ _ _ (by simpa using h1)
    rcases hpv : p' ++ v with - | ⟨x, - | ⟨y, t⟩⟩
    · rw [show ((c :: c2 :: p') ++ v) = (c :: c2 :: (p' ++ v)) by simp, hpv]
      rfl
    · rw [show ((c :: c2 :: p') ++ v) = (c :: c2 :: (p' ++ v)) by simp, hpv]
      rfl
    · rw [show ((c :: c2 :: p') ++ v) = (c :: c2 :: (p' ++ v)) by simp, hpv]
      rw [hasBlank]
      rw [if_neg (by rintro ⟨hc, hx, -⟩; exact hcd ⟨hc, hx⟩)]
      rw [← hpv]
      rw [show (c2 :: (p' ++ v)) = ((c2 :: p') ++ v) by simp]
      apply hasBlank_append_nopair (c2 :: p') v _ h2
      have := hasPair_tail '\r' '\n' c _ (by simpa using h1)
      simpa using this

theorem entryLine_ne_nil (e : HEntry) : entryLine e ≠ [] := by
  rw [entryLine]
  cases e.name <;> simp

theorem startsCRLF_entryLine (e : HEntry) (h : hasPair '\r' '\n' e.name = false) :
    startsCRLF (entryLine e) = false := by
  rw [entryLine]
  cases hn : e.name with
  | nil => rfl
  | cons c n' =>
    cases n' with
    | nil =>
      rw [List.singleton_append, startsCRLF]
      simp
    | cons c2 n'' =>
      rw [hn] at h
      rw [List.cons_append, List.cons_append, startsCRLF]
      simp only [decide_eq_false_iff_not]
      exact hasPair_head _ _ _ _ _ h

theorem isContLine_entryLine (e : HEntry) (h : startsSpaceTab e.name = false) :
    isContLine (entryLine e) = false := by
  rw [entryLine]
  cases hn : e.name with
  | nil =>
    rw [List.nil_append, isContLine]
    simp
  | cons c n' =>
    rw [hn] at h
    rw [List.cons_append, isContLine]
    simp only [List.head?_cons]
    rw [startsSpaceTab] at h
    simpa using h

theorem endsCRLF_entryLine (e : HEntry) (v : Str) (hv : e.val = some v)
    (h : wfVal v = true) : endsCRLF (entryLine e) = false := by
  rw [entryLine, hv]
  rcases hrev : v.reverse with - | ⟨b, - | ⟨a, t⟩⟩
  · have : v = [] := by simpa using congrArg List.reverse hrev
    subst this
    rw [show (e.name ++ ':' :: ' ' :: (some ([] : Str)).getD []) = (e.name ++ [':', ' ']) from by simp]
    rw [endsCRLF_append_two, endsCRLF_two]
    decide
  · have : v = [b] := by
      have := congrArg List.reverse hrev
      simpa using this
    subst this
    rw [show (e.name ++ ':' :: ' ' :: (some ([b] : Str)).getD []) = ((e.name ++ [':']) ++ [' ', b]) from by simp]
    rw [endsCRLF_append_two, endsCRLF_two]
    simp
  · have hvv : v = t.reverse ++ [a, b] := by
      have := congrArg List.reverse hrev
      simpa using this
    have hend : endsCRLF v = false := wfVal_not_endsCRLF v h
    rw [hvv] at hend
    rw [endsCRLF_append_two] at hend
    rw [show (e.name ++ ':' :: ' ' :: (some v).getD []) = ((e.name ++ ':' :: ' ' :: t.reverse) ++ [a, b]) from by simp [hvv]]
    rw [endsCRLF_append_two]
    exact hend

theorem hasBlank_entryLine (e : HEntry) (v : Str) (hv : e.val = some v)
    (hn : hasPair '\r' '\n' e.name = false) (h : wfVal v = true) :
    hasBlank (entryLine e) = false := by
  rw [entryLine, hv]
  rw [show (e.name ++ ':' :: ' ' :: (some v).getD []) = ((e.name ++ [':', ' ']) ++ v) from by simp]
  apply hasBlank_append_nopair
  · have := sep_nopair e.name v hn
    rw [show (e.name ++ ':' :: ' ' :: v.take 1) = ((e.name ++ [':', ' ']) ++ v.take 1) from by simp] at this
    exact this
  · exact wfVal_hasBlank v h

theorem hasBlank_inter_pad (lines : List Str)
    (hl : ∀ l ∈ lines, hasBlank l = false ∧ endsCRLF l = false ∧
      startsCRLF l = false ∧ l ≠ []) (hne : lines ≠ []) :
    hasBlank (interCRLF lines ++ ['\r', '\n', '\r']) = false := by
  match lines with
  | [] => exact absurd rfl hne
  | [l] =>
    obtain ⟨h1, h2, -, -⟩ := hl l (by simp)
    rw [show interCRLF [l] = l from rfl]
    rw [show (['\r', '\n', '\r'] : Str) = ('\r' :: '\n' :: ['\r']) from rfl]
    exact hasBlank_line_then l ['\r'] h1 h2 rfl
  | l :: l2 :: ls =>
    obtain ⟨h1, h2, -, -⟩ := hl l (by simp)
    obtain ⟨-, -, h23, h24⟩ := hl l2 (by simp)
    have hIH : hasBlank (interCRLF (l2 :: ls) ++ ['\r', '\n', '\r']) = false :=
      hasBlank_inter_pad (l2 :: ls) (fun x hx => hl x (List.mem_cons_of_mem l hx)) (by simp)
    have hstart : startsCRLF (interCRLF (l2 :: ls) ++ ['\r', '\n', '\r']) = false := by
      cases ls with
      | nil =>
        rw [show interCRLF [l2] = l2 from rfl]
        exact startsCRLF_append l2 _ h23 h24 (by decide)
      | cons l3 ls' =>
        rw [show interCRLF (l2 :: l3 :: ls') = (l2 ++ '\r' :: '\n' :: interCRLF (l3 :: ls')) from rfl]
        rw [List.append_assoc]
        exact startsCRLF_append l2 _ h23 h24 (by simp)
    rw [show interCRLF (l :: l2 :: ls) = (l ++ '\r' :: '\n' :: interCRLF (l2 :: ls)) from rfl]
    rw [List.append_assoc]
    rw [show ('\r' :: '\n' :: interCRLF (l2 :: ls) ++ ['\r', '\n', '\r'])
        = ('\r' :: '\n' :: (interCRLF (l2 :: ls) ++ ['\r', '\n', '\r'])) from by simp]
    exact hasBlank_line_then l _ h1 h2 (hasBlank_crlf_cons _ hstart hIH)

theorem lineOk_of_wf (e : HEntry) (h : wfEntry e = true) :
    hasBlank (entryLine e) = false ∧ endsCRLF (entryLine e) = false ∧
      startsCRLF (entryLine e) = false ∧ entryLine e ≠ [] := by
  obtain ⟨v, hv, -, hn1, -, -, hwv⟩ := wfEntry_elim e h
  exact ⟨hasBlank_entryLine e v hv hn1 hwv, endsCRLF_entryLine e v hv hwv,
    startsCRLF_entryLine e hn1, entryLine_ne_nil e⟩

theorem splitCRLF_append_left (p v : Str) (w : Str) (ws : List Str)
    (hp : hasPair '\r' '\n' (p ++ v.take 1) = false) (hs : splitCRLF v = w :: ws) :
    splitCRLF (p ++ v) = (p ++ w) :: ws := by
  match p with
  | [] => simpa using hs
  | [c] =>
    match v with
    | [] =>
      rw [splitCRLF_nil] at hs
      injection hs with h1 h2
      subst h1; subst h2
      rfl
    | d :: v' =>
      have hcd : ¬(c = '\r' ∧ d = '\n') := hasPair_head _ _ _ _ _ (by simpa using hp)
      rw [List.singleton_append, splitCRLF_cons₂ c d v' hcd, hs, consHead]
      rfl
  | c :: c2 :: p' =>
    have hcd : ¬(c = '\r' ∧ c2 = '\n') := hasPair_head _ _ _ _ _ (by simpa using hp)
    have ih := splitCRLF_append_left (c2 :: p') v w ws
      (hasPair_tail _ _ _ _ (by simpa using hp)) hs
    rw [show ((c :: c2 :: p') ++ v) = (c :: c2 :: (p' ++ v)) from by simp]
    rw [splitCRLF_cons₂ c c2 (p' ++ v) hcd]
    rw [show (c2 :: (p' ++ v)) = ((c2 :: p') ++ v) from by simp]
    rw [ih, consHead]
    rfl

theorem splitCS_sep (n w : Str) (hn : hasPair ':' ' ' n = false) :
    splitCS (n ++ ':' :: ' ' :: w) = (n, some w) := by
  match n with
  | [] =>
    rw [List.nil_append, splitCS, if_pos ⟨rfl, rfl⟩]
  | [c] =>
    have hcd : ¬(c = ':' ∧ (':' : Char) = ' ') := by rintro ⟨-, h2⟩; exact absurd h2 (by decide)
    rw [List.singleton_append, splitCS, if_neg hcd]
    rw [show splitCS (':' :: ' ' :: w) = ([], some w) from by rw [splitCS, if_pos ⟨rfl, rfl⟩]]
  | c :: c2 :: n' =>
    have hcd : ¬(c = ':' ∧ c2 = ' ') := hasPair_head _ _ _ _ _ hn
    have ih := splitCS_sep (c2 :: n') w (hasPair_tail _ _ _ _ hn)
    rw [show ((c :: c2 :: n') ++ ':' :: ' ' :: w) = (c :: c2 :: (n' ++ ':' :: ' ' :: w)) from by simp]
    rw [splitCS, if_neg hcd]
    rw [show (c2 :: (n' ++ ':' :: ' ' :: w)) = ((c2 :: n') ++ ':' :: ' ' :: w) from by simp]
    rw [ih]

theorem updateH_not_mem (hs : List HEntry) (k n : Str) (v : Option Str)
    (h : lookupH hs k = none) : updateH hs k n v = hs ++ [⟨k, n, v⟩] := by
  induction hs with
  | nil => rfl
  | cons e t ih =>
    rw [lookupH] at h
    rw [updateH]
    by_cases hk : e.key = k
    · rw [if_pos hk] at h
      cases h
    · rw [if_neg hk] at h
      rw [if_neg hk, ih h]
      rfl

theorem lookupH_append_self (hs : List HEntry) (k n : Str) (v : Option Str)
    (h : lookupH hs k = none) : lookupH (hs ++ [⟨k, n, v⟩]) k = some ⟨k, n, v⟩ := by
  induction hs with
  | nil => rw [List.nil_append, lookupH, if_pos rfl]
  | cons e t ih =>
    rw [lookupH] at h
    by_cases hk : e.key = k
    · rw [if_pos hk] at h
      cases h
    · rw [if_neg hk] at h
      rw [List.cons_append, lookupH, if_neg hk]
      exact ih h

theorem updateH_append_self (hs : List HEntry) (k n n2 : Str) (v v2 : Option Str)
    (h : lookupH hs k = none) :
    updateH (hs ++ [⟨k, n, v⟩]) k n2 v2 = hs ++ [⟨k, n2, v2⟩] := by
  induction hs with
  | nil => rw [List.nil_append, updateH, if_pos rfl]; rfl
  | cons e t ih =>
    rw [lookupH] at h
    by_cases hk : e.key = k
    · rw [if_pos hk] at h
      cases h
    · rw [if_neg hk] at h
      rw [List.cons_append, updateH, if_neg hk, ih h]
      rfl

theorem lookupH_append_ne (hs : List HEntry) (k k2 n : Str) (v : Option Str)
    (h : lookupH hs k2 = none) (hne : k ≠ k2) :
    lookupH (hs ++ [⟨k, n, v⟩]) k2 = none := by
  induction hs with
  | nil => rw [List.nil_append, lookupH, if_neg hne]; rfl
  | cons e t ih =>
    rw [lookupH] at h
    by_cases hk : e.key = k2
    · rw [if_pos hk] at h
      cases h
    · rw [if_neg hk] at h
      rw [List.cons_append, lookupH, if_neg hk]
      exact ih h

theorem foldl_crlf_pull (ws : List Str) (p u : Str) :
    ws.foldl (fun a w => a ++ '\r' :: '\n' :: w) (p ++ u)
      = p ++ ws.foldl (fun a w => a ++ '\r' :: '\n' :: w) u := by
  induction ws generalizing u with
  | nil => rfl
  | cons w ws' ih =>
    rw [List.foldl_cons, List.foldl_cons]
    rw [List.append_assoc]
    exact ih (u ++ '\r' :: '\n' :: w)

theorem interCRLF_eq_foldl (w : Str) (ws : List Str) :
    interCRLF (w :: ws) = ws.foldl (fun a w2 => a ++ '\r' :: '\n' :: w2) w := by
  induction ws generalizing w with
  | nil => rfl
  | cons w2 ws' ih =>
    rw [show interCRLF (w :: w2 :: ws') = (w ++ '\r' :: '\n' :: interCRLF (w2 :: ws')) from rfl]
    rw [ih w2, List.foldl_cons]
    have h2 := foldl_crlf_pull ws' (w ++ ['\r', '\n']) w2
    simp only [List.append_assoc, List.cons_append, List.nil_append] at h2 ⊢
    exact h2.symm

theorem exFoldlM_append {α β : Type} (f : β → α → Except PyErr β) (l₁ l₂ : List α) (b : β) :
    (l₁ ++ l₂).foldlM f b
      = (l₁.foldlM f b >>= fun b2 => l₂.foldlM f b2) := by
  induction l₁ generalizing b with
  | nil =>
    rw [List.nil_append, List.foldlM_nil, expure, exbind_ok]
  | cons a l₁' ih =>
    rw [List.cons_append, List.foldlM_cons, List.foldlM_cons]
    cases f b a with
    | ok b2 => rw [exbind_ok, exbind_ok, ih b2]
    | error e => rw [exbind_err, exbind_err, exbind_err]

theorem procConts (ws : List Str) (hws : ∀ w ∈ ws, isContLine w = true)
    (hs : List HEntry) (k n u : Str) (hk : lookupH hs k = none) :
    List.foldlM procLine (hs ++ [⟨k, n, some u⟩], some k) ws
      = .ok (hs ++ [⟨k, n,
          some (ws.foldl (fun a w => a ++ '\r' :: '\n' :: w) u)⟩], some k) := by
  induction ws generalizing u with
  | nil => rw [List.foldlM_nil, List.foldl_nil, expure]
  | cons w ws' ih =>
    rw [List.foldlM_cons]
    rw [show procLine (hs ++ [⟨k, n, some u⟩], some k) w
        = .ok (hs ++ [⟨k, n, some (u ++ '\r' :: '\n' :: w)⟩], some k) from by
      rw [procLine, if_pos (hws w (by simp))]
      show (match lookupH (hs ++ [⟨k, n, some u⟩]) k with
        | none => Except.error PyErr.keyError
        | some e =>
          match e.val with
          | none => Except.error PyErr.indexError
          | some v2 =>
            Except.ok (updateH (hs ++ [⟨k, n, some u⟩]) k e.name
              (some (v2 ++ '\r' :: '\n' :: w)), some k))
        = Except.ok (hs ++ [⟨k, n, some (u ++ '\r' :: '\n' :: w)⟩], some k)
      rw [lookupH_append_self hs k n (some u) hk]
      show Except.ok (updateH (hs ++ [⟨k, n, some u⟩]) k n
          (some (u ++ '\r' :: '\n' :: w)), some k)
        = Except.ok (hs ++ [⟨k, n, some (u ++ '\r' :: '\n' :: w)⟩], some k)
      rw [updateH_append_self hs k n n (some u) (some (u ++ '\r' :: '\n' :: w)) hk]]
    rw [exbind_ok]
    rw [ih (fun x hx => hws x (List.mem_cons_of_mem w hx)) (u ++ '\r' :: '\n' :: w)]
    rw [List.foldl_cons]

theorem isContLine_first (n w : Str) (h : startsSpaceTab n = false) :
    isContLine (n ++ ':' :: ' ' :: w) = false := by
  cases n with
  | nil =>
    rw [List.nil_append, isContLine]
    simp
  | cons c n' =>
    rw [List.cons_append, isContLine]
    simp only [List.head?_cons]
    rw [startsSpaceTab] at h
    simpa using h

theorem procEntry (e : HEntry) (hs : List HEntry) (prev : Option Str)
    (hwf : wfEntry e = true) (hfresh : lookupH hs e.key = none) :
    List.foldlM procLine (hs, prev) (splitCRLF (entryLine e))
      = .ok (hs ++ [e], some e.key) := by
  obtain ⟨v, hv, hkey, hn1, hn2, hn3, hwv⟩ := wfEntry_elim e hwf
  obtain ⟨w, ws, hsp⟩ : ∃ w ws, splitCRLF v = w :: ws := by
    cases hs2 : splitCRLF v with
    | nil => exact absurd hs2 (splitCRLF_ne_nil v)
    | cons w ws => exact ⟨w, ws, rfl⟩
  have hline : splitCRLF (entryLine e) = ((e.name ++ [':', ' ']) ++ w) :: ws := by
    rw [entryLine, hv]
    rw [show (e.name ++ ':' :: ' ' :: (some v).getD [])
        = ((e.name ++ [':', ' ']) ++ v) from by simp]
    exact splitCRLF_append_left (e.name ++ [':', ' ']) v w ws
      (by
        have := sep_nopair e.name v hn1
        rw [show (e.name ++ ':' :: ' ' :: v.take 1)
            = ((e.name ++ [':', ' ']) ++ v.take 1) from by simp] at this
        exact this) hsp
  rw [hline, List.foldlM_cons]
  rw [show procLine (hs, prev) ((e.name ++ [':', ' ']) ++ w)
      = .ok (hs ++ [⟨e.key, e.name, some w⟩], some e.key) from by
    rw [procLine]
    rw [if_neg (by
      rw [show ((e.name ++ [':', ' ']) ++ w) = (e.name ++ ':' :: ' ' :: w) from by simp]
      rw [isContLine_first e.name w hn3]
      simp)]
    rw [show ((e.name ++ [':', ' ']) ++ w) = (e.name ++ ':' :: ' ' :: w) from by simp]
    rw [splitCS_sep e.name w hn2]
    show Except.ok (updateH hs (lowerStr e.name) e.name (some w), some (lowerStr e.name))
        = Except.ok (hs ++ [⟨e.key, e.name, some w⟩], some e.key)
    rw [updateH_not_mem hs (lowerStr e.name) e.name (some w) (by rw [← hkey]; exact hfresh)]
    rw [← hkey]]
  rw [exbind_ok]
  have hcont := procConts ws (fun x hx => by
      have := wfVal_cont v hwv x (by rw [hsp]; simpa using hx)
      rw [isContLine]
      cases x with
      | nil => cases this
      | cons c x' =>
        rw [startsSpaceTab] at this
        simpa using this)
    hs e.key e.name w hfresh
  rw [hcont]
  have hval : ws.foldl (fun a w2 => a ++ '\r' :: '\n' :: w2) w = v := by
    rw [← interCRLF_eq_foldl w ws, ← hsp]
    exact interCRLF_splitCRLF v
  rw [hval, ← hv]

theorem procEntries (entries : List HEntry) (hs : List HEntry) (prev : Option Str)
    (hwf : ∀ e ∈ entries, wfEntry e = true)
    (hfresh : ∀ e ∈ entries, lookupH hs e.key = none)
    (hnd : (entries.map HEntry.key).Nodup) (hne : entries ≠ []) :
    ∃ k, List.foldlM procLine (hs, prev) (splitCRLF (interCRLF (entries.map entryLine)))
      = .ok (hs ++ entries, some k) := by
  match entries with
  | [] => exact absurd rfl hne
  | [e] =>
    refine ⟨e.key, ?_⟩
    rw [show (([e].map entryLine)) = [entryLine e] from rfl]
    rw [show interCRLF [entryLine e] = entryLine e from rfl]
    exact procEntry e hs prev (hwf e (by simp)) (hfresh e (by simp))
  | e :: e2 :: rest =>
    have hsplit : splitCRLF (interCRLF ((e :: e2 :: rest).map entryLine))
        = splitCRLF (entryLine e) ++ splitCRLF (interCRLF ((e2 :: rest).map entryLine)) := by
      rw [show (((e :: e2 :: rest).map entryLine)) 
          = (entryLine e :: (e2 :: rest).map entryLine) from rfl]
      rw [show interCRLF (entryLine e :: (e2 :: rest).map entryLine)
          = (entryLine e ++ '\r' :: '\n' :: interCRLF ((e2 :: rest).map entryLine)) from rfl]
      exact splitCRLF_append (entryLine e) _
    rw [hsplit, exFoldlM_append]
    rw [procEntry e hs prev (hwf e (by simp)) (hfresh e (by simp))]
    rw [exbind_ok]
    have hnd' : ((e2 :: rest).map HEntry.key).Nodup := by
      have := hnd
      simp only [List.map_cons, List.nodup_cons] at this ⊢
      exact ⟨this.2.1, this.2.2⟩
    have hfresh' : ∀ x ∈ e2 :: rest, lookupH (hs ++ [e]) x.key = none := by
      intro x hx
      have hne2 : e.key ≠ x.key := by
        have := hnd
        simp only [List.map_cons, List.nodup_cons] at this
        intro heq
        exact this.1 (heq ▸ List.mem_map_of_mem HEntry.key hx)
      have := lookupH_append_ne hs e.key x.key e.name e.val (hfresh x (List.mem_cons_of_mem e hx)) hne2
      simpa using this
    obtain ⟨k, hk⟩ := procEntries (e2 :: rest) (hs ++ [e]) (some e.key)
      (fun x hx => hwf x (List.mem_cons_of_mem e hx)) hfresh' hnd' (by simp)
    refine ⟨k, ?_⟩
    rw [hk]
    rw [List.append_assoc]
    rfl

theorem lookupH_updateH_self (hs : List HEntry) (k n : Str) (v : Option Str) :
    lookupH (updateH hs k n v) k = some ⟨k, n, v⟩ := by
  induction hs with
  | nil => rw [updateH, lookupH, if_pos rfl]
  | cons e t ih =>
    rw [updateH]
    by_cases hk : e.key = k
    · rw [if_pos hk, lookupH, if_pos rfl]
    · rw [if_neg hk, lookupH, if_neg hk]
      exact ih

theorem lookupH_updateH_ne (hs : List HEntry) (k k2 n : Str) (v : Option Str)
    (hne : k2 ≠ k) : lookupH (updateH hs k n v) k2 = lookupH hs k2 := by
  induction hs with
  | nil =>
    rw [updateH, lookupH, lookupH, if_neg (show ((⟨k, n, v⟩ : HEntry).key = k2) → False from
      fun h => hne h.symm)]
    rfl
  | cons e t ih =>
    rw [updateH]
    by_cases hk : e.key = k
    · rw [if_pos hk, lookupH, lookupH]
      rw [if_neg (show ((⟨k, n, v⟩ : HEntry).key = k2) → False from fun h => hne h.symm)]
      rw [if_neg (show (e.key = k2) → False from fun h => hne (h.symm.trans hk))]
    · rw [if_neg hk, lookupH, lookupH]
      by_cases hk2 : e.key = k2
      · rw [if_pos hk2, if_pos hk2]
      · rw [if_neg hk2, if_neg hk2]
        exact ih

theorem hasVal_elim (hs : List HEntry) (h : Str) (hh : hasVal hs h = true) :
    ∃ w, getHeaderE hs h = .ok w ∧ w ≠ [] := by
  rw [hasVal] at hh
  cases hg : getHeaderE hs h with
  | ok w =>
    rw [hg] at hh
    exact ⟨w, rfl, by simpa using hh⟩
  | error e =>
    rw [hg] at hh
    cases hh

theorem dflt_noop (hs : List HEntry) (h v : Str) (hh : hasVal hs h = true) :
    dflt hs h v = .ok hs := by
  obtain ⟨w, hg, hne⟩ := hasVal_elim hs h hh
  rw [dflt, hg, exbind_ok, if_neg hne, expure]

theorem dflt_hasVal (hs hs2 : List HEntry) (h v : Str)
    (hd : dflt hs h v = .ok hs2) (hv : v ≠ []) : hasVal hs2 h = true := by
  rw [dflt] at hd
  cases hg : getHeaderE hs h with
  | error e =>
    rw [hg, exbind_err] at hd
    cases hd
  | ok cur =>
    rw [hg, exbind_ok, expure] at hd
    injection hd with hd
    by_cases hc : cur = []
    · rw [if_pos hc] at hd
      rw [← hd, hasVal, getHeaderE, putHeaderH, lookupH_updateH_self]
      simpa using hv
    · rw [if_neg hc] at hd
      rw [← hd, hasVal, hg]
      simpa using hc

theorem dflt_pres (hs hs2 : List HEntry) (h1 h2 v : Str)
    (hh : hasVal hs h1 = true) (hd : dflt hs h2 v = .ok hs2) : hasVal hs2 h1 = true := by
  rw [dflt] at hd
  cases hg : getHeaderE hs h2 with
  | error e =>
    rw [hg, exbind_err] at hd
    cases hd
  | ok cur =>
    rw [hg, exbind_ok, expure] at hd
    injection hd with hd
    by_cases hc : cur = []
    · rw [if_pos hc] at hd
      by_cases hk : lowerStr h1 = lowerStr h2
      · obtain ⟨w, hg1, hne⟩ := hasVal_elim hs h1 hh
        rw [getHeaderE, hk] at hg1
        rw [hc, getHeaderE] at hg
        cases hl : lookupH hs (lowerStr h2) with
        | none =>
          simp only [hl] at hg1
          injection hg1 with hg1
          exact absurd hg1.symm hne
        | some e2 =>
          simp only [hl] at hg1 hg
          cases hv2 : e2.val with
          | none =>
            simp only [hv2] at hg1
            cases hg1
          | some v2 =>
            simp only [hv2] at hg1 hg
            injection hg1 with hg1
            injection hg with hg
            rw [← hg1, hg] at hne
            exact absurd rfl hne
      · rw [← hd, hasVal, getHeaderE, putHeaderH, lookupH_updateH_ne _ _ _ _ _ hk]
        rw [hasVal, getHeaderE] at hh
        exact hh
    · rw [if_neg hc] at hd
      rw [← hd]
      exact hh

theorem mapM_entryLine (hs : List HEntry) (h : ∀ e ∈ hs, ∃ v, e.val = some v) :
    hs.mapM (fun e => match e.val with
      | none => Except.error PyErr.typeError
      | some v => Except.ok (e.name ++ ':' :: ' ' :: v)) = .ok (hs.map entryLine) := by
  induction hs with
  | nil => rfl
  | cons e t ih =>
    rw [List.mapM_cons]
    obtain ⟨v, hv⟩ := h e (by simp)
    simp only [hv]
    rw [exbind_ok, ih (fun x hx => h x (List.mem_cons_of_mem e hx)), exbind_ok, expure]
    rw [List.map_cons]
    rw [show entryLine e = (e.name ++ ':' :: ' ' :: v) from by rw [entryLine, hv]; rfl]

theorem textHeadersE_wf (a : Article) (h : ∀ e ∈ a.headers, ∃ v, e.val = some v) :
    textHeadersE a = .ok (interCRLF (a.headers.map entryLine) ++ ['\r', '\n']) := by
  rw [textHeadersE, mapM_entryLine a.headers h, exbind_ok, expure]

theorem mkArticle_defaults (env : Env) (head body : Str) (a : Article)
    (h : mkArticle env head body = .ok a) (hdate : env.dateStr ≠ []) :
    (hasVal a.headers (sc "Message-ID") = true ∧ hasVal a.headers (sc "Bytes") = true ∧
      hasVal a.headers (sc "Lines") = true ∧ hasVal a.headers (sc "Date") = true) ∧
      a.body = body := by
  rw [mkArticle] at h
  cases h0 : parseHead head with
  | error e => rw [h0, exbind_err] at h; cases h
  | ok hs0 =>
    rw [h0, exbind_ok] at h
    cases h1 : dflt hs0 (sc "Message-ID") ('<' :: env.msgIdCore ++ ['>']) with
    | error e => rw [h1, exbind_err] at h; cases h
    | ok hs1 =>
      rw [h1, exbind_ok] at h
      cases h2 : dflt hs1 (sc "Bytes") (natStr body.length) with
      | error e => rw [h2, exbind_err] at h; cases h
      | ok hs2 =>
        rw [h2, exbind_ok] at h
        cases h3 : dflt hs2 (sc "Lines") (natStr (body.count '\n')) with
        | error e => rw [h3, exbind_err] at h; cases h
        | ok hs3 =>
          rw [h3, exbind_ok] at h
          cases h4 : dflt hs3 (sc "Date") env.dateStr with
          | error e => rw [h4, exbind_err] at h; cases h
          | ok hs4 =>
            rw [h4, exbind_ok, expure] at h
            injection h with h
            subst h
            have hm : hasVal hs4 (sc "Message-ID") = true :=
              dflt_pres _ _ _ _ _ (dflt_pres _ _ _ _ _ (dflt_pres _ _ _ _ _
                (dflt_hasVal hs0 hs1 _ _ h1 (by simp)) h2) h3) h4
            have hb : hasVal hs4 (sc "Bytes") = true :=
              dflt_pres _ _ _ _ _ (dflt_pres _ _ _ _ _
                (dflt_hasVal hs1 hs2 _ _ h2 (natStr_ne_nil _)) h3) h4
            have hl : hasVal hs4 (sc "Lines") = true :=
              dflt_pres _ _ _ _ _
                (dflt_hasVal hs2 hs3 _ _ h3 (natStr_ne_nil _)) h4
            have hd : hasVal hs4 (sc "Date") = true :=
              dflt_hasVal hs3 hs4 _ _ h4 hdate
            exact ⟨⟨hm, hb, hl, hd⟩, rfl⟩

/-- C7 (amended): `Article.__init__` synthesises the four defaulted
headers `Message-ID`, `Bytes`, `Lines` and `Date` when they are absent,
and for a well-formed parsed article (every header stored with the
`': '` separator, names free of CRLF and `': '` and not starting with
space or tab, properly folded values, distinct keys) the serialised
full text — `textHeaders` plus a blank line plus the body — cleaves at
the first CRLFCRLF and re-parses to exactly the same article, under any
environment. -/
theorem c7_amended_roundtrip (env env2 : Env) (head body : Str) (a : Article)
    (hparse : mkArticle env head body = .ok a) (hdate : env.dateStr ≠ [])
    (hwf : wfArticle a = true) :
    (hasVal a.headers (sc "Message-ID") = true ∧ hasVal a.headers (sc "Bytes") = true ∧
      hasVal a.headers (sc "Lines") = true ∧ hasVal a.headers (sc "Date") = true) ∧
    reparse env2 a = .ok a := by
  obtain ⟨hvals, hbody⟩ := mkArticle_defaults env head body a hparse hdate
  refine ⟨hvals, ?_⟩
  rw [wfArticle] at hwf
  simp only [Bool.and_eq_true, decide_eq_true_eq, List.all_eq_true] at hwf
  obtain ⟨⟨hne, hall⟩, hnd⟩ := hwf
  have hth : textHeadersE a = .ok (interCRLF (a.headers.map entryLine) ++ ['\r', '\n']) :=
    textHeadersE_wf a (fun e he => by
      obtain ⟨v, hv, -⟩ := wfEntry_elim e (hall e he)
      exact ⟨v, hv⟩)
  rw [reparse, hth, exbind_ok]
  show mkArticle env2
      (cleave ((interCRLF (a.headers.map entryLine) ++ ['\r', '\n']) ++ '\r' :: '\n' :: a.body)).1
      (cleave ((interCRLF (a.headers.map entryLine) ++ ['\r', '\n']) ++ '\r' :: '\n' :: a.body)).2
      = .ok a
  rw [show ((interCRLF (a.headers.map entryLine) ++ ['\r', '\n']) ++ '\r' :: '\n' :: a.body)
      = (interCRLF (a.headers.map entryLine) ++ '\r' :: '\n' :: '\r' :: '\n' :: a.body) from by simp]
  have hlines : ∀ l ∈ a.headers.map entryLine, hasBlank l = false ∧ endsCRLF l = false ∧
      startsCRLF l = false ∧ l ≠ [] := by
    intro l hl
    obtain ⟨e, he, rfl⟩ := List.mem_map.mp hl
    exact lineOk_of_wf e (hall e he)
  have hmapne : a.headers.map entryLine ≠ [] := by
    intro hc
    exact hne (List.map_eq_nil_iff.mp hc)
  have hfind : findBlank (interCRLF (a.headers.map entryLine) ++ '\r' :: '\n' :: '\r' :: '\n' :: a.body)
      = some (interCRLF (a.headers.map entryLine)).length :=
    findBlank_pad _ a.body (hasBlank_inter_pad _ hlines hmapne)
  have hcl : cleave (interCRLF (a.headers.map entryLine) ++ '\r' :: '\n' :: '\r' :: '\n' :: a.body)
      = (interCRLF (a.headers.map entryLine), a.body) := by
    rw [cleave]
    simp only [hfind]
    rw [List.take_left]
    rw [show (interCRLF (a.headers.map entryLine) ++ '\r' :: '\n' :: '\r' :: '\n' :: a.body)
        = ((interCRLF (a.headers.map entryLine) ++ ['\r', '\n', '\r', '\n']) ++ a.body) from by simp]
    rw [show (interCRLF (a.headers.map entryLine)).length + 4
        = (interCRLF (a.headers.map entryLine) ++ ['\r', '\n', '\r', '\n']).length from by simp]
    rw [List.drop_left]
  rw [hcl]
  show mkArticle env2 (interCRLF (a.headers.map entryLine)) a.body = .ok a
  have hph : parseHead (interCRLF (a.headers.map entryLine)) = .ok a.headers := by
    obtain ⟨k, hk⟩ := procEntries a.headers [] none hall (fun _ _ => rfl) hnd hne
    rw [parseHead, hk, exbind_ok, expure]
    simp
  rw [mkArticle, hph, exbind_ok]
  rw [dflt_noop _ _ _ hvals.1, exbind_ok]
  rw [dflt_noop _ _ _ hvals.2.1, exbind_ok]
  rw [dflt_noop _ _ _ hvals.2.2.1, exbind_ok]
  rw [dflt_noop _ _ _ hvals.2.2.2, exbind_ok]
  rw [expure]

/-- Witness for C7 (amended) at the concrete head `"A: x\r\n\ty"` and
body `"b"`: the folded header and the four synthesised headers survive
the serialise/re-parse round trip unchanged. -/
theorem c7_amended_witness :
    (hasVal c7W.headers (sc "Message-ID") = true ∧ hasVal c7W.headers (sc "Bytes") = true ∧
      hasVal c7W.headers (sc "Lines") = true ∧ hasVal c7W.headers (sc "Date") = true) ∧
    reparse envC c7W = .ok c7W :=
  c7_amended_roundtrip envC envC (sc "A: x\r\n\ty") (sc "b") c7W rfl (by decide) (by decide)

end News

